import Mathlib

/-!
Verification of the mesh-mirroring transform of the TES3-Pyton-Scripts
repository against its design specification.

The development shallowly embeds the two mirroring scripts
`03 - TES3_automatic_mirroring_X/_TES3_automirror_NIF_X.py` (X-axis position
mirror), `03 - TES3_automatic_mirroring_X/_TES3_automirror_UVW_X_Y.py`
(UV mirror) and the legacy `03 - TES3_automatic_mirroring/_TES3_automirror_NIF.py`.

Numbers: the scripts parse coordinate text with CPython `float()` and re-encode
the results with f-strings (`repr`).  All values that occur are finite decimal
literals, and every arithmetic operation performed (negation, `1.0 - u`) is
exact on such values, so floats are modelled as exact decimal rationals
represented by a mantissa/exponent pair `Dec` (value `m / 10 ^ e`).  The model
abstracts from IEEE-754 artefacts that the claims do not touch: binary rounding
of long decimals, signed zero, `inf`/`nan` tokens and underscore separators in
numeric literals.

JSON documents are embedded as an inductive `J` (dicts as ordered association
lists, mirroring CPython dict insertion order).  In-place mutation of the
loaded dict is modelled by explicit value passing; a Python exception escaping
a region of code is an `Except.error`.
-/

namespace TES3

/-- ASCII decimal digit test (the digits accepted by CPython `float`). -/
def isDigitCh (c : Char) : Bool := '0' ≤ c && c ≤ '9'

/-- Whitespace recognized by Python `str.split()` with no arguments
(ASCII subset; unicode whitespace is out of the model's scope). -/
def isWs (c : Char) : Bool :=
  c == ' ' || c == '\t' || c == '\n' || c == '\r' || c == '\x0b' || c == '\x0c'

/-- Character of a single decimal digit (0..9; total with '9' as catch-all). -/
def digChr : Nat → Char
  | 0 => '0' | 1 => '1' | 2 => '2' | 3 => '3' | 4 => '4'
  | 5 => '5' | 6 => '6' | 7 => '7' | 8 => '8' | _ => '9'

/-- Numeric value of a digit character. -/
def digVal (c : Char) : Nat := c.toNat - 48

/-- Decimal digits of a natural number, least significant first.
Fuel-driven so the definition is structural and kernel-evaluable. -/
def natDigitsRevAux : Nat → Nat → List Char
  | 0, _ => []
  | _, 0 => []
  | fuel + 1, n + 1 => digChr ((n + 1) % 10) :: natDigitsRevAux fuel ((n + 1) / 10)

/-- Decimal digits of a natural number, most significant first ("0" for zero). -/
def natDigits (n : Nat) : List Char :=
  if n = 0 then ['0'] else (natDigitsRevAux n n).reverse

/-- Value of a most-significant-first digit string, with accumulator. -/
def digitsValAux (acc : Nat) : List Char → Nat
  | [] => acc
  | c :: cs => digitsValAux (10 * acc + digVal c) cs

/-- Value of a most-significant-first digit string. -/
def digitsVal (l : List Char) : Nat := digitsValAux 0 l

/-- Exact decimal number with value `m / 10 ^ e`: the model of a finite CPython
float arising from a decimal literal. -/
structure Dec where
  m : Int
  e : Nat
deriving DecidableEq

/-- Rational value denoted by a `Dec`. -/
def Dec.val (d : Dec) : ℚ := (d.m : ℚ) / (10 : ℚ) ^ d.e

/-- Strip trailing fractional zeros (`250/10^2 ↦ 25/10^1`); structural on the
exponent. -/
def normAux : Nat → Int → Int × Nat
  | 0, m => (m, 0)
  | e + 1, m => if m % 10 = 0 then normAux e (m / 10) else (m, e + 1)

/-- Canonical representation with trailing fractional zeros stripped: the form
whose digits Python `repr` prints for such a value. -/
def Dec.norm (d : Dec) : Dec := ⟨(normAux d.e d.m).1, (normAux d.e d.m).2⟩

/-- Negation (exact on floats, hence exact in the model). -/
def Dec.negD (d : Dec) : Dec := ⟨-d.m, d.e⟩

/-- The value `1.0 - u` (exact on the decimal values in scope). -/
def Dec.oneMinus (d : Dec) : Dec := ⟨10 ^ d.e - d.m, d.e⟩

/-- Two decimal representations denote the same rational value
(cross-multiplied, so that it is kernel-decidable). -/
abbrev Dec.veq (a b : Dec) : Prop := a.m * 10 ^ b.e = b.m * 10 ^ a.e

/-- Representation with at least one fractional digit (`5 ↦ 50/10`): printing
always emits one fractional digit, so re-parsing the printed text yields this
form. -/
def Dec.padOne (c : Dec) : Dec := if c.e = 0 then ⟨c.m * 10, 1⟩ else c

/-- The representation obtained by printing a value and parsing it back. -/
def Dec.reparsed (d : Dec) : Dec := d.norm.padOne

/-- Integer part and padded fractional digits of `n / 10 ^ e` (`n : Nat`).
A zero exponent still prints one fractional digit, as Python repr does
(`repr(5.0) = "5.0"`). -/
def fmtNat (n : Nat) (e : Nat) : List Char :=
  natDigits (n / 10 ^ e) ++
    '.' :: (if e = 0 then ['0']
            else List.replicate (e - (natDigits (n % 10 ^ e)).length) '0' ++
              natDigits (n % 10 ^ e))

/-- Text an f-string produces for a float value: sign, then the shortest exact
decimal expansion (Python `repr`). -/
def fmtDec (d : Dec) : List Char :=
  (if (Dec.norm d).m < 0 then ['-'] else []) ++
    fmtNat (Dec.norm d).m.natAbs (Dec.norm d).e

/-- The string `f"{x} {y} {z}"` built from three float values. -/
def fmt3 (x y z : Dec) : String :=
  String.mk (fmtDec x ++ ' ' :: (fmtDec y ++ ' ' :: fmtDec z))

/-- The string `f"{u} {v}"` built from two float values. -/
def fmt2 (u v : Dec) : String := String.mk (fmtDec u ++ ' ' :: fmtDec v)

/-- Optional leading sign of a numeric token; returns (isNegative, rest). -/
def readSign (cs : List Char) : Bool × List Char :=
  match cs with
  | c :: rest =>
    if c == '-' then (true, rest)
    else if c == '+' then (false, rest)
    else (false, cs)
  | [] => (false, cs)

/-- Exponent suffix of a CPython float literal: empty, or `e`/`E`, an optional
sign and a nonempty digit string consuming the whole remainder. -/
def readExp (cs : List Char) : Option Int :=
  match cs with
  | [] => some 0
  | c :: rest =>
    if c == 'e' || c == 'E' then
      let p := readSign rest
      let ds := p.2.takeWhile isDigitCh
      if ds ≠ [] ∧ p.2.dropWhile isDigitCh = [] then
        some (if p.1 then -(digitsVal ds : Int) else (digitsVal ds : Int))
      else none
    else none

/-- Fractional part of a float literal: consumed only after a dot. -/
def fracSplit : List Char → List Char × List Char
  | c :: r =>
    if c == '.' then (r.takeWhile isDigitCh, r.dropWhile isDigitCh)
    else ([], c :: r)
  | [] => ([], [])

/-- Mantissa digits combined with the parsed exponent into a `Dec`. -/
def tokWithExp (neg : Bool) (ds1 frac : List Char) : Option Int → Option Dec
  | none => none
  | some ex =>
    if 0 ≤ ex then
      some ⟨(if neg then -(digitsVal ds1 * 10 ^ frac.length + digitsVal frac : Int)
             else (digitsVal ds1 * 10 ^ frac.length + digitsVal frac : Int)) *
              10 ^ ex.toNat,
            frac.length⟩
    else
      some ⟨(if neg then -(digitsVal ds1 * 10 ^ frac.length + digitsVal frac : Int)
             else (digitsVal ds1 * 10 ^ frac.length + digitsVal frac : Int)),
            frac.length + (-ex).toNat⟩

/-- Mantissa part of a float literal after the sign: digits, an optional
fractional part (at least one digit overall), and an optional exponent. -/
def tokCore (neg : Bool) (cs1 : List Char) : Option Dec :=
  if cs1.takeWhile isDigitCh = [] ∧ (fracSplit (cs1.dropWhile isDigitCh)).1 = [] then
    none
  else
    tokWithExp neg (cs1.takeWhile isDigitCh) (fracSplit (cs1.dropWhile isDigitCh)).1
      (readExp (fracSplit (cs1.dropWhile isDigitCh)).2)

/-- CPython `float(token)` on a whitespace-free token, restricted to finite
decimal literals.  `inf`, `nan`, underscores in literals and unicode digits
are outside the model. -/
def tokFloat? (cs : List Char) : Option Dec :=
  tokCore (readSign cs).1 (readSign cs).2

/-- Worker of `pySplit`: accumulates the current token reversed. -/
def splitWsAux : List Char → List Char → List (List Char)
  | [], acc => if acc.isEmpty then [] else [acc.reverse]
  | c :: cs, acc =>
    if isWs c then
      if acc.isEmpty then splitWsAux cs [] else acc.reverse :: splitWsAux cs []
    else splitWsAux cs (c :: acc)

/-- Python `split()` on a character list: split on runs of whitespace,
discarding empty tokens. -/
def splitWs (l : List Char) : List (List Char) := splitWsAux l []

/-- Python `s.split()` with no arguments. -/
def pySplit (s : String) : List (List Char) := splitWs s.toList

/-- The unpacking `x, y, z = map(float, s.split())`: `some` exactly when the
string has three tokens that all parse as floats (otherwise CPython raises
`ValueError`). -/
def parse3 (s : String) : Option (Dec × Dec × Dec) :=
  match pySplit s with
  | [a, b, c] =>
    match tokFloat? a, tokFloat? b, tokFloat? c with
    | some x, some y, some z => some (x, y, z)
    | _, _, _ => none
  | _ => none

/-- The unpacking `u, v = map(float, s.split())`. -/
def parse2 (s : String) : Option (Dec × Dec) :=
  match pySplit s with
  | [a, b] =>
    match tokFloat? a, tokFloat? b with
    | some u, some v => some (u, v)
    | _, _ => none
  | _ => none

/-- Rational values denoted by the three floats of a coordinate string, when
it parses (used to state value-level properties). -/
def parse3val (s : String) : Option (ℚ × ℚ × ℚ) :=
  (parse3 s).map (fun t => (t.1.val, t.2.1.val, t.2.2.val))

/-- Rational values denoted by the two floats of a UV string, when it
parses. -/
def parse2val (s : String) : Option (ℚ × ℚ) :=
  (parse2 s).map (fun p => (p.1.val, p.2.val))

/-- Values of the JSON documents the scripts load: strings, numbers, booleans,
null, arrays, and objects as ordered association lists (CPython dicts keep
insertion order, and `json.load` produces fresh unaliased values). -/
inductive J where
  | s : String → J
  | num : Int → J
  | b : Bool → J
  | null : J
  | arr : List J → J
  | obj : List (String × J) → J

/-- A loaded `.nif.json` document: the top-level JSON object's fields. -/
abbrev Doc := List (String × J)

/-- First binding of a key in an object (`d[k]` / `k in d` on a dict). -/
def getField? (fields : Doc) (k : String) : Option J :=
  match fields.find? (fun kv => kv.1 == k) with
  | some kv => some kv.2
  | none => none

/-- Assignment `d[k] = v` for a key already present (the scripts only assign
to keys they found). -/
def updField (fields : Doc) (k : String) (v : J) : Doc :=
  fields.map (fun kv => if kv.1 == k then (k, v) else kv)

/-- Python `for x in v`: lists yield elements, strings yield their characters
as one-character strings, dicts yield their keys; other values raise
`TypeError`. -/
def pyIter (v : J) : Except String (List J) :=
  match v with
  | .arr l => .ok l
  | .s str => .ok (str.toList.map (fun c => J.s (String.mk [c])))
  | .obj fields => .ok (fields.map (fun kv => J.s kv.1))
  | _ => .error "TypeError"

/-- Python truthiness of a JSON value. -/
def pyTruthy (v : J) : Bool :=
  match v with
  | .s str => !str.isEmpty
  | .num n => n != 0
  | .b bv => bv
  | .null => false
  | .arr l => !l.isEmpty
  | .obj fields => !fields.isEmpty

/-- Whether `needle in hay` holds for Python strings (substring test). -/
def hasSub (needle hay : String) : Bool :=
  decide (needle.toList <:+: hay.toList)

/-- Python `isinstance(v, str)`. -/
def isStrJ (v : J) : Bool :=
  match v with
  | .s _ => true
  | _ => false

end TES3

namespace TES3

/-! Embedding of `_TES3_automirror_NIF_X.py` (the X-axis position mirror). -/

/-- Function `mirror_coordinates` (lines 24-30): three floats are unpacked
from the string and re-encoded with the x component negated; a `ValueError`
(wrong token count or unparsable token) is caught, logged and the original
string returned.  The log message's CPython exception detail is elided. -/
def mirror_coordinates (coords : String) : String × List String :=
  match parse3 coords with
  | some (x, y, z) => (fmt3 x.negD y z, [])
  | none => (coords, ["Error mirroring coordinates '" ++ coords ++ "'"])

/-- One element of the `Vertices`/`Normals` list comprehension: a non-string
element raises `AttributeError` at `v.split()` before anything is logged. -/
def mirrorElem (v : J) : Except String (J × List String) :=
  match v with
  | .s str => .ok (J.s (mirror_coordinates str).1, (mirror_coordinates str).2)
  | _ => .error "AttributeError"

/-- The list comprehension `[mirror_coordinates(v) for v in items]`: logs of
the elements already processed survive an exception raised further down the
list (they were printed before the raise); the partial result list does not. -/
def mirrorJList : List J → Except (List String) (List J × List String)
  | [] => .ok ([], [])
  | v :: rest =>
    match mirrorElem v with
    | .error _ => .error []
    | .ok (v', logs) =>
      match mirrorJList rest with
      | .error ls => .error (logs ++ ls)
      | .ok (vs, ls) => .ok (v' :: vs, logs ++ ls)

/-- State of one geometry block while its fields are processed: current field
bindings of the (mutated-in-place) dict, and log lines emitted so far. -/
structure BSt where
  fields : Doc
  logs : List String

/-- Processing of one coordinate-list field (`Vertices` or `Normals`):
mutations already performed stay visible when a later exception unwinds to the
block-level handler, so errors carry the current state. -/
def doCoordsField (name : String) (st : BSt) : Except BSt BSt :=
  match getField? st.fields name with
  | none => .ok st
  | some v =>
    match pyIter v with
    | .error _ => .error st
    | .ok items =>
      match mirrorJList items with
      | .error ls => .error ⟨st.fields, st.logs ++ ls⟩
      | .ok (items', ls) =>
        .ok ⟨updField st.fields name (J.arr items'), st.logs ++ ls⟩

/-- Processing of the `Center` field (a single coordinate string; a non-string
value raises `AttributeError` at `.split()`). -/
def doCenter (st : BSt) : Except BSt BSt :=
  match getField? st.fields "Center" with
  | none => .ok st
  | some (.s c) =>
    .ok ⟨updField st.fields "Center" (J.s (mirror_coordinates c).1),
         st.logs ++ (mirror_coordinates c).2⟩
  | some _ => .error st

/-- The triangle comprehension of the X script (line 58): split every entry,
keep only those with exactly 3 tokens, and emit them winding-reversed with
single-space joins.  Entries with a different token count are silently
dropped, which makes the `except IndexError` handler on lines 60-61 dead
code. -/
def revTriStrs (items : List J) : List J :=
  let toks := items.map (fun t =>
    match t with
    | .s s2 => splitWs s2.toList
    | _ => ([] : List Char) :: [])
  (toks.filter (fun t => t.length == 3)).map (fun t =>
    J.s (String.mk (t.getD 2 [] ++ ' ' :: (t.getD 1 [] ++ ' ' :: t.getD 0 []))))

/-- One in-place swap `l[i], l[i+2] = l[i+2], l[i]` of the flat-triangle loop
(both reads happen before either write). -/
def swapAt3 (l : List J) (i : Nat) : List J :=
  (l.set i (l.getD (i + 2) J.null)).set (i + 2) (l.getD i J.null)

/-- The flat-triangle loop `for i in range(0, len(t), 3): t[i], t[i+2] =
t[i+2], t[i]` run on a copy of the list. -/
def revFlatLoop (l : List J) : List J :=
  (List.range' 0 (l.length / 3) 3).foldl swapAt3 l

/-- Stated from the spec's words, as the comparator for the flat encoding:
"each consecutive group of 3 elements has its first and third swapped". -/
def specSwapGroups : List J → List J
  | a :: bJ :: c :: rest => c :: bJ :: a :: specSwapGroups rest
  | l => l

/-- Triangle processing of the X script (lines 52-68). -/
def doTrianglesX (key : String) (st : BSt) : Except BSt BSt :=
  match getField? st.fields "Triangles" with
  | none => .ok st
  | some tv =>
    match pyIter tv with
    | .error _ => .error st
    | .ok items =>
      if items.all isStrJ then
        .ok ⟨updField st.fields "Triangles" (J.arr (revTriStrs items)), st.logs⟩
      else
        match tv with
        | .arr l =>
          if l.length % 3 == 0 then
            .ok ⟨updField st.fields "Triangles" (J.arr (revFlatLoop l)), st.logs⟩
          else
            .ok ⟨st.fields, st.logs ++
              ["Warning: Unsupported triangle format in " ++ key ++
               " - skipping triangle processing"]⟩
        | _ =>
          .ok ⟨st.fields, st.logs ++
            ["Warning: Unsupported triangle format in " ++ key ++
             " - skipping triangle processing"]⟩

/-- Body of the per-geometry-block `try` of `process_model_data` (lines
38-71): a non-dict block is skipped with a warning; otherwise `Vertices`,
`Normals`, `Center` and `Triangles` are processed in order, and any exception
is caught by the block-level handler, which logs and moves on, keeping the
mutations already applied. -/
def transformShapeX (key : String) (v : J) : J × List String :=
  match v with
  | .obj fields =>
    let res : Except BSt BSt := do
      let st1 ← doCoordsField "Vertices" ⟨fields, []⟩
      let st2 ← doCoordsField "Normals" st1
      let st3 ← doCenter st2
      doTrianglesX key st3
    match res with
    | .ok st => (J.obj st.fields, st.logs)
    | .error st =>
      (J.obj st.fields, st.logs ++ ["Error processing shape data in " ++ key])
  | _ => (v, ["Warning: Unexpected data format in " ++ key ++ ", skipping"])

/-- Function `process_model_data` of the X script (lines 33-73): every block
whose key contains "NiTriShapeData" is transformed in place; all other blocks
are untouched.  Returns the document contents after the call together with the
log lines emitted. -/
def process_model_data : Doc → Doc × List String
  | [] => ([], [])
  | (k, v) :: rest =>
    let hd := if hasSub "NiTriShapeData" k then transformShapeX k v else (v, [])
    let tl := process_model_data rest
    ((k, hd.1) :: tl.1, hd.2 ++ tl.2)

/-- Call model of `mirrored_model = process_model_data(model_json)` in
`process_single_file` of the X script (line 81): the function mutates the dict
object passed to it and returns that same object, so after the call the
caller's document and the returned document are one and the same (mirrored)
value.  First component: the caller's document object after the call; second:
the returned document. -/
def nifX_call (d : Doc) : Doc × Doc :=
  ((process_model_data d).1, (process_model_data d).1)

end TES3

namespace TES3

/-! Embedding of `_TES3_automirror_UVW_X_Y.py` (the UV mirror). -/

/-- Function `mirror_uv` (lines 26-38): two floats are unpacked; mirror type
`'x'` maps `(u, v)` to `(1.0 - u, v)` (the spec's axis U), `'y'` maps it to
`(u, 1.0 - v)` (axis V), any other type logs a warning and returns the
original; a `ValueError` in the unpacking is caught, logged, and the original
returned. -/
def mirror_uv (uv_coords mirror_type : String) : String × List String :=
  match parse2 uv_coords with
  | some (u, v) =>
    if mirror_type == "x" then (fmt2 u.oneMinus v, [])
    else if mirror_type == "y" then (fmt2 u v.oneMinus, [])
    else (uv_coords,
      ["Warning: Unknown mirror type '" ++ mirror_type ++ "' - returning original"])
  | none => (uv_coords, ["Error mirroring UV coords '" ++ uv_coords ++ "'"])

/-- The comprehension `[mirror_uv(uv, t) for uv in uv_set]`; a non-string
element raises `AttributeError`, with the logs of earlier elements kept. -/
def uvListMap (mt : String) : List J → Except (List String) (List J × List String)
  | [] => .ok ([], [])
  | v :: rest =>
    match v with
    | .s str =>
      match uvListMap mt rest with
      | .error ls => .error ((mirror_uv str mt).2 ++ ls)
      | .ok (vs, ls) =>
        .ok (J.s (mirror_uv str mt).1 :: vs, (mirror_uv str mt).2 ++ ls)
    | _ => .error []

/-- Per-geometry-block body of `process_model_uv` (lines 46-57): when the
block has a truthy `"UV Sets"` field whose first element is a truthy list, the
first UV set is mapped through `mirror_uv` and written back; every other UV
set is untouched.  Any exception (e.g. indexing a number) is caught by the
block-level handler, which logs and continues. -/
def transformShapeUV (key mt : String) (v : J) : J × List String :=
  match v with
  | .obj fields =>
    match getField? fields "UV Sets" with
    | some (.arr (set0 :: restSets)) =>
      (match set0 with
       | .arr items =>
         if items.isEmpty then (J.obj fields, [])
         else
           match uvListMap mt items with
           | .error ls =>
             (J.obj fields, ls ++ ["Error processing UV data in " ++ key])
           | .ok (items', ls) =>
             (J.obj (updField fields "UV Sets" (J.arr (J.arr items' :: restSets))),
              ls)
       | _ => (J.obj fields, []))
    | some (.arr []) => (J.obj fields, [])
    | some (.s _) => (J.obj fields, [])
    | some (.obj f2) =>
      if f2.isEmpty then (J.obj fields, [])
      else (J.obj fields, ["Error processing UV data in " ++ key])
    | some (.num n) =>
      if n == 0 then (J.obj fields, [])
      else (J.obj fields, ["Error processing UV data in " ++ key])
    | some (.b bv) =>
      if bv then (J.obj fields, ["Error processing UV data in " ++ key])
      else (J.obj fields, [])
    | some .null => (J.obj fields, [])
    | none => (J.obj fields, [])
  | _ => (v, ["Warning: Unexpected data format in " ++ key ++ ", skipping"])

/-- Function `process_model_uv` (lines 41-59). -/
def process_model_uv (mt : String) : Doc → Doc × List String
  | [] => ([], [])
  | (k, v) :: rest =>
    let hd := if hasSub "NiTriShapeData" k then transformShapeUV k mt v else (v, [])
    let tl := process_model_uv mt rest
    ((k, hd.1) :: tl.1, hd.2 ++ tl.2)

/-- The round-trip `json.loads(json.dumps(x))`: an independent fresh value
equal to `x`; in the value semantics of the embedding this is the identity. -/
def deepCopy (d : Doc) : Doc := d

/-- Call model of lines 84-90 of `process_single_file` in the UV script: each
mirrored sibling is computed on a fresh deep copy, so the caller's original
document object is untouched after both calls.  Components: the caller's
document object after the calls, the X-UV sibling, the Y-UV sibling. -/
def uvw_call (d : Doc) : Doc × Doc × Doc :=
  (d, (process_model_uv "x" (deepCopy d)).1, (process_model_uv "y" (deepCopy d)).1)

end TES3

namespace TES3

/-! Embedding of the legacy `_TES3_automirror_NIF.py`.  Its coordinate
helpers have no try/except, and `process_model_data` has no per-block
handler: a `ValueError`/`AttributeError`/`TypeError` propagates out of the
whole-document transform to `process_single_file`, which then fails the file. -/

/-- Function `mirror_vertex` (lines 24-26; `mirror_normal` and the inline
`Center` update are the same computation): no exception handling, a parse
failure raises `ValueError`. -/
def mirror_vertex (vertex : String) : Except String String :=
  match parse3 vertex with
  | some (x, y, z) => .ok (fmt3 x.negD y z)
  | none => .error "ValueError"

/-- Python `needle in shape_data` for an arbitrary value: dicts test keys,
strings test substrings, lists test membership; numbers/booleans/None raise
`TypeError`. -/
def pyContains (needle : String) (v : J) : Except String Bool :=
  match v with
  | .obj fields => .ok (fields.any (fun kv => kv.1 == needle))
  | .s str => .ok (hasSub needle str)
  | .arr l =>
    .ok (l.any (fun x =>
      match x with
      | .s s2 => s2 == needle
      | _ => false))
  | _ => .error "TypeError"

/-- Python `v[k]` with a string key: dict lookup (`KeyError` when absent);
other values raise `TypeError`. -/
def pyGetItemStr (v : J) (k : String) : Except String J :=
  match v with
  | .obj fields =>
    match getField? fields k with
    | some x => .ok x
    | none => .error "KeyError"
  | _ => .error "TypeError"

/-- Python `v[k] = x` with a string key on a dict. -/
def pySetItemStr (v : J) (k : String) (x : J) : Except String J :=
  match v with
  | .obj fields => .ok (J.obj (updField fields k x))
  | _ => .error "TypeError"

/-- The comprehension `[mirror_vertex(v) for v in vs]` of the legacy script:
any failure aborts the comprehension (nothing is assigned). -/
def legacyMirrorList : List J → Except String (List String)
  | [] => .ok []
  | .s v :: rest => do
    let r ← mirror_vertex v
    let rs ← legacyMirrorList rest
    .ok (r :: rs)
  | _ :: _ => .error "AttributeError"

/-- Triangle processing of the legacy script (lines 53-73): the string
encoding has no length filter, so an entry with fewer than 3 tokens raises
`IndexError`, caught locally with a warning and the field left unchanged;
entries with 3 or more tokens use their first three. -/
def legacyTriangles (key : String) (sd : J) : Except String (J × List String) := do
  let hasT ← pyContains "Triangles" sd
  if hasT then do
    let tv ← pyGetItemStr sd "Triangles"
    let items ← pyIter tv
    if items.all isStrJ then
      let toks := items.map (fun t =>
        match t with
        | .s s2 => splitWs s2.toList
        | _ => ([] : List Char) :: [])
      if toks.all (fun t => 3 ≤ t.length) then do
        let sd' ← pySetItemStr sd "Triangles" (J.arr (toks.map (fun t =>
          J.s (String.mk (t.getD 2 [] ++ ' ' :: (t.getD 1 [] ++ ' ' :: t.getD 0 []))))))
        .ok (sd', [])
      else
        .ok (sd, ["Warning: Malformed triangle data in " ++ key ++
                  " - skipping triangle processing"])
    else
      match tv with
      | .arr l =>
        if l.length % 3 == 0 then do
          let sd' ← pySetItemStr sd "Triangles" (J.arr (revFlatLoop l))
          .ok (sd', [])
        else
          .ok (sd, ["Warning: Unsupported triangle format in " ++ key ++
                    " - skipping triangle processing"])
      | _ =>
        .ok (sd, ["Warning: Unsupported triangle format in " ++ key ++
                  " - skipping triangle processing"])
  else .ok (sd, [])

/-- One coordinate-list field of the legacy script. -/
def legacyCoordsField (name : String) (sd : J) : Except String J := do
  let hasF ← pyContains name sd
  if hasF then do
    let val ← pyGetItemStr sd name
    let items ← pyIter val
    let strs ← legacyMirrorList items
    pySetItemStr sd name (J.arr (strs.map J.s))
  else .ok sd

/-- Per-geometry-block body of the legacy `process_model_data` (lines 35-73):
no isinstance check and no exception handler. -/
def legacyShape (key : String) (sd : J) : Except String (J × List String) := do
  let sd1 ← legacyCoordsField "Vertices" sd
  let sd2 ← legacyCoordsField "Normals" sd1
  let hasC ← pyContains "Center" sd2
  let sd3 ←
    if hasC then do
      let cv ← pyGetItemStr sd2 "Center"
      match cv with
      | .s c =>
        match parse3 c with
        | some (x, y, z) => pySetItemStr sd2 "Center" (J.s (fmt3 x.negD y z))
        | none => .error "ValueError"
      | _ => .error "AttributeError"
    else pure sd2
  legacyTriangles key sd3

/-- Function `process_model_data` of the legacy script (lines 34-75): an
exception in any geometry block aborts the whole-document transform
(`process_single_file` then reports failure and writes nothing). -/
def legacy_process_model_data : Doc → Except String (Doc × List String)
  | [] => .ok ([], [])
  | (k, v) :: rest => do
    let hd ← if hasSub "NiTriShapeData" k then legacyShape k v else pure (v, [])
    let tl ← legacy_process_model_data rest
    .ok ((k, hd.1) :: tl.1, hd.2 ++ tl.2)

end TES3

namespace TES3

/-! Digit-level lemmas for the print/parse round trip. -/

theorem digChr_spec (d : Nat) :
    isDigitCh (digChr d) = true ∧ isWs (digChr d) = false ∧
    (digChr d == '-') = false ∧ (digChr d == '+') = false ∧
    (digChr d == '.') = false := by
  rcases d with _|_|_|_|_|_|_|_|_|d <;> exact ⟨rfl, rfl, rfl, rfl, rfl⟩

theorem digVal_digChr (d : Nat) (h : d < 10) : digVal (digChr d) = d := by
  interval_cases d <;> rfl

theorem natDigitsRevAux_mem (fuel : Nat) :
    ∀ n, ∀ c ∈ natDigitsRevAux fuel n, ∃ k, c = digChr k := by
  induction fuel with
  | zero => intro n c hc; simp [natDigitsRevAux] at hc
  | succ f ih =>
    intro n c hc
    cases n with
    | zero => simp [natDigitsRevAux] at hc
    | succ n =>
      rw [natDigitsRevAux] at hc
      rcases List.mem_cons.mp hc with h | h
      · exact ⟨_, h⟩
      · exact ih _ c h

theorem natDigits_mem (n : Nat) :
    ∀ c ∈ natDigits n, ∃ k, c = digChr k := by
  intro c hc
  unfold natDigits at hc
  by_cases h : n = 0
  · simp [h] at hc
    exact ⟨0, hc⟩
  · simp [h] at hc
    exact natDigitsRevAux_mem n n c hc

theorem natDigits_digit {n : Nat} : ∀ c ∈ natDigits n, isDigitCh c = true := by
  intro c hc
  obtain ⟨k, rfl⟩ := natDigits_mem n c hc
  exact (digChr_spec k).1

theorem natDigits_not_ws {n : Nat} : ∀ c ∈ natDigits n, isWs c = false := by
  intro c hc
  obtain ⟨k, rfl⟩ := natDigits_mem n c hc
  exact (digChr_spec k).2.1

theorem natDigits_ne_nil (n : Nat) : natDigits n ≠ [] := by
  unfold natDigits
  by_cases h : n = 0
  · simp [h]
  · simp only [h, if_false]
    intro hrev
    rcases hn : natDigitsRevAux n n with _ | ⟨c, cs⟩
    · cases n with
      | zero => exact h rfl
      | succ n => rw [natDigitsRevAux] at hn; exact List.noConfusion hn
    · rw [hn] at hrev
      simp at hrev

theorem digitsValAux_nil (acc : Nat) : digitsValAux acc [] = acc := rfl

theorem digitsValAux_cons (acc : Nat) (c : Char) (cs : List Char) :
    digitsValAux acc (c :: cs) = digitsValAux (10 * acc + digVal c) cs := rfl

theorem digitsValAux_append (acc : Nat) (l₁ l₂ : List Char) :
    digitsValAux acc (l₁ ++ l₂) = digitsValAux (digitsValAux acc l₁) l₂ := by
  induction l₁ generalizing acc with
  | nil => rfl
  | cons c cs ih => exact ih (10 * acc + digVal c)

theorem digitsValAux_natDigitsRevAux (fuel : Nat) :
    ∀ n, n ≤ fuel → ∀ acc,
      digitsValAux acc (natDigitsRevAux fuel n).reverse =
        acc * 10 ^ (natDigitsRevAux fuel n).length + n := by
  induction fuel with
  | zero =>
    intro n hn acc
    interval_cases n
    show acc = acc * 10 ^ 0 + 0
    simp
  | succ f ih =>
    intro n hn acc
    cases n with
    | zero =>
      show acc = acc * 10 ^ 0 + 0
      simp
    | succ n =>
      rw [natDigitsRevAux, List.reverse_cons, digitsValAux_append]
      have hdiv : (n + 1) / 10 < n + 1 := Nat.div_lt_self (Nat.succ_pos n) (by norm_num)
      rw [ih ((n + 1) / 10) (by omega) acc]
      rw [digitsValAux_cons, digitsValAux_nil]
      simp only [List.length_cons]
      rw [digVal_digChr _ (Nat.mod_lt _ (by norm_num))]
      have hdm := Nat.div_add_mod (n + 1) 10
      have hpow : (10 : Nat) ^ ((natDigitsRevAux f ((n + 1) / 10)).length + 1) =
          10 ^ (natDigitsRevAux f ((n + 1) / 10)).length * 10 := pow_succ 10 _
      rw [hpow, ← Nat.mul_assoc]
      generalize acc * 10 ^ (natDigitsRevAux f ((n + 1) / 10)).length = A
      omega

theorem digitsVal_natDigits (n : Nat) : digitsVal (natDigits n) = n := by
  unfold natDigits digitsVal
  by_cases h : n = 0
  · simp only [h, if_true, eq_self_iff_true]
    decide
  · simp only [h, if_false]
    rw [digitsValAux_natDigitsRevAux n n (le_refl n) 0]
    simp

theorem natDigitsRevAux_length_le (fuel : Nat) :
    ∀ n k, n ≤ fuel → n < 10 ^ k → (natDigitsRevAux fuel n).length ≤ k := by
  induction fuel with
  | zero =>
    intro n k hn _
    interval_cases n
    simp [natDigitsRevAux]
  | succ f ih =>
    intro n k hn hk
    cases n with
    | zero => simp [natDigitsRevAux]
    | succ n =>
      cases k with
      | zero => exact absurd hk (by norm_num)
      | succ k =>
        rw [natDigitsRevAux]
        simp only [List.length_cons]
        have hq : (n + 1) / 10 < 10 ^ k := by
          rw [Nat.div_lt_iff_lt_mul (by norm_num : (0:Nat) < 10)]
          calc n + 1 < 10 ^ (k + 1) := hk
          _ = 10 ^ k * 10 := pow_succ 10 k
        have hdiv : (n + 1) / 10 < n + 1 := Nat.div_lt_self (Nat.succ_pos n) (by norm_num)
        have := ih ((n + 1) / 10) k (by omega) hq
        omega

theorem natDigits_length_le {n k : Nat} (hk : 1 ≤ k) (h : n < 10 ^ k) :
    (natDigits n).length ≤ k := by
  unfold natDigits
  by_cases h0 : n = 0
  · simp [h0]; omega
  · simp only [h0, if_false, List.length_reverse]
    exact natDigitsRevAux_length_le n n k (le_refl n) h

theorem digitsValAux_replicate_zero (z : Nat) :
    ∀ acc (l : List Char),
      digitsValAux acc (List.replicate z '0' ++ l) = digitsValAux (acc * 10 ^ z) l := by
  induction z with
  | zero => intro acc l; simp
  | succ z ih =>
    intro acc l
    rw [List.replicate_succ, List.cons_append, digitsValAux_cons]
    rw [ih]
    have h1 : digVal '0' = 0 := rfl
    have h2 : (10 * acc + digVal '0') * 10 ^ z = acc * 10 ^ (z + 1) := by
      rw [h1]; ring
    rw [h2]

end TES3

namespace TES3

/-! Token and whitespace splitting lemmas. -/

theorem splitWsAux_nil (acc : List Char) :
    splitWsAux [] acc = if acc.isEmpty then [] else [acc.reverse] := rfl

theorem splitWsAux_cons (c : Char) (cs acc : List Char) :
    splitWsAux (c :: cs) acc =
      if isWs c then
        (if acc.isEmpty then splitWsAux cs [] else acc.reverse :: splitWsAux cs [])
      else splitWsAux cs (c :: acc) := rfl

theorem takeWhile_all {p : Char → Bool} :
    ∀ l : List Char, (∀ a ∈ l, p a = true) →
      l.takeWhile p = l ∧ l.dropWhile p = [] := by
  intro l
  induction l with
  | nil => intro _; exact ⟨rfl, rfl⟩
  | cons c cs ih =>
    intro h
    have hc : p c = true := h c (List.mem_cons_self c cs)
    have ih' := ih (fun a ha => h a (List.mem_cons_of_mem c ha))
    rw [List.takeWhile_cons, List.dropWhile_cons]
    simp only [hc, if_true]
    exact ⟨by rw [ih'.1], ih'.2⟩

theorem takeWhile_append_stop {p : Char → Bool} {x : Char} (hx : p x = false) :
    ∀ (l₁ l₂ : List Char), (∀ a ∈ l₁, p a = true) →
      (l₁ ++ x :: l₂).takeWhile p = l₁ ∧ (l₁ ++ x :: l₂).dropWhile p = x :: l₂ := by
  intro l₁
  induction l₁ with
  | nil =>
    intro l₂ _
    rw [List.nil_append, List.takeWhile_cons, List.dropWhile_cons]
    simp [hx]
  | cons c cs ih =>
    intro l₂ h
    have hc : p c = true := h c (List.mem_cons_self c cs)
    have ih' := ih l₂ (fun a ha => h a (List.mem_cons_of_mem c ha))
    rw [List.cons_append, List.takeWhile_cons, List.dropWhile_cons]
    simp only [hc, if_true]
    exact ⟨by rw [ih'.1], ih'.2⟩

theorem splitWsAux_token :
    ∀ (t : List Char), (∀ c ∈ t, isWs c = false) → ∀ (rest acc : List Char),
      splitWsAux (t ++ rest) acc = splitWsAux rest (t.reverse ++ acc) := by
  intro t
  induction t with
  | nil => intro _ rest acc; simp
  | cons c cs ih =>
    intro h rest acc
    have hc : isWs c = false := h c (List.mem_cons_self c cs)
    rw [List.cons_append, splitWsAux_cons, hc, if_neg (by simp)]
    rw [ih (fun a ha => h a (List.mem_cons_of_mem c ha)) rest (c :: acc)]
    congr 1
    simp

theorem splitWs_single (t : List Char) (ht : ∀ c ∈ t, isWs c = false)
    (hne : t ≠ []) : splitWs t = [t] := by
  unfold splitWs
  have h1 : splitWsAux (t ++ []) [] = splitWsAux [] (t.reverse ++ []) :=
    splitWsAux_token t ht [] []
  rw [List.append_nil] at h1
  rw [h1, splitWsAux_nil, List.append_nil]
  have h2 : t.reverse.isEmpty = false := by
    cases hrev : t.reverse with
    | nil => exact absurd (List.reverse_eq_nil_iff.mp hrev) hne
    | cons a as => rfl
  rw [h2, if_neg (by simp), List.reverse_reverse]

theorem splitWs_step (t : List Char) (ht : ∀ c ∈ t, isWs c = false)
    (hne : t ≠ []) (rest : List Char) :
    splitWs (t ++ ' ' :: rest) = t :: splitWs rest := by
  unfold splitWs
  rw [splitWsAux_token t ht (' ' :: rest) [], List.append_nil, splitWsAux_cons]
  have hws : isWs ' ' = true := rfl
  rw [hws, if_pos rfl]
  have h2 : t.reverse.isEmpty = false := by
    cases hrev : t.reverse with
    | nil => exact absurd (List.reverse_eq_nil_iff.mp hrev) hne
    | cons a as => rfl
  rw [h2, if_neg (by simp), List.reverse_reverse]

theorem splitWs_triple (a b c : List Char)
    (ha : ∀ x ∈ a, isWs x = false) (hb : ∀ x ∈ b, isWs x = false)
    (hc : ∀ x ∈ c, isWs x = false)
    (na : a ≠ []) (nb : b ≠ []) (nc : c ≠ []) :
    splitWs (a ++ ' ' :: (b ++ ' ' :: c)) = [a, b, c] := by
  rw [splitWs_step a ha na, splitWs_step b hb nb, splitWs_single c hc nc]

theorem splitWs_double (a b : List Char)
    (ha : ∀ x ∈ a, isWs x = false) (hb : ∀ x ∈ b, isWs x = false)
    (na : a ≠ []) (nb : b ≠ []) :
    splitWs (a ++ ' ' :: b) = [a, b] := by
  rw [splitWs_step a ha na, splitWs_single b hb nb]

end TES3

namespace TES3

/-! Print/parse round trip. -/

theorem fmtNat_not_ws (n e : Nat) : ∀ c ∈ fmtNat n e, isWs c = false := by
  intro c hcm
  unfold fmtNat at hcm
  rcases List.mem_append.mp hcm with h | h
  · exact natDigits_not_ws c h
  · rcases List.mem_cons.mp h with h | h
    · rw [h]; rfl
    · by_cases he : e = 0
      · rw [if_pos he] at h
        simp at h
        rw [h]; rfl
      · rw [if_neg he] at h
        rcases List.mem_append.mp h with h | h
        · rw [List.eq_of_mem_replicate h]; rfl
        · exact natDigits_not_ws c h

theorem fmtDec_not_ws (d : Dec) : ∀ c ∈ fmtDec d, isWs c = false := by
  intro c hcm
  unfold fmtDec at hcm
  rcases List.mem_append.mp hcm with h | h
  · by_cases hm : (Dec.norm d).m < 0
    · rw [if_pos hm] at h
      simp at h
      rw [h]; rfl
    · rw [if_neg hm] at h
      simp at h
  · exact fmtNat_not_ws _ _ c h

theorem fmtNat_ne_nil (n e : Nat) : fmtNat n e ≠ [] := by
  unfold fmtNat
  intro h
  rcases List.append_eq_nil.mp h with ⟨h1, _⟩
  exact natDigits_ne_nil _ h1

theorem fmtDec_ne_nil (d : Dec) : fmtDec d ≠ [] := by
  unfold fmtDec
  intro h
  rcases List.append_eq_nil.mp h with ⟨_, h2⟩
  exact fmtNat_ne_nil _ _ h2

theorem fracSplit_dot (frac : List Char) (hd : ∀ c ∈ frac, isDigitCh c = true) :
    fracSplit ('.' :: frac) = (frac, []) := by
  show (frac.takeWhile isDigitCh, frac.dropWhile isDigitCh) = (frac, [])
  rw [(takeWhile_all frac hd).1, (takeWhile_all frac hd).2]

theorem frac_digits (n e : Nat) :
    ∀ c ∈ (if e = 0 then ['0']
           else List.replicate (e - (natDigits (n % 10 ^ e)).length) '0' ++
             natDigits (n % 10 ^ e)),
      isDigitCh c = true := by
  intro c h
  by_cases he : e = 0
  · rw [if_pos he] at h
    simp at h
    rw [h]; rfl
  · rw [if_neg he] at h
    rcases List.mem_append.mp h with h | h
    · rw [List.eq_of_mem_replicate h]; rfl
    · exact natDigits_digit c h

theorem frac_length (n e : Nat) :
    (if e = 0 then ['0']
     else List.replicate (e - (natDigits (n % 10 ^ e)).length) '0' ++
       natDigits (n % 10 ^ e)).length = max e 1 := by
  by_cases he : e = 0
  · rw [if_pos he, he]
    rfl
  · rw [if_neg he]
    have h1 : 1 ≤ e := Nat.one_le_iff_ne_zero.mpr he
    have h2 : (natDigits (n % 10 ^ e)).length ≤ e :=
      natDigits_length_le h1 (Nat.mod_lt _ (by positivity))
    rw [List.length_append, List.length_replicate]
    omega

theorem frac_val (n e : Nat) :
    digitsVal (if e = 0 then ['0']
               else List.replicate (e - (natDigits (n % 10 ^ e)).length) '0' ++
                 natDigits (n % 10 ^ e)) = if e = 0 then 0 else n % 10 ^ e := by
  by_cases he : e = 0
  · rw [if_pos he, if_pos he]
    rfl
  · rw [if_neg he, if_neg he]
    unfold digitsVal
    rw [digitsValAux_replicate_zero]
    simp only [Nat.zero_mul]
    exact digitsVal_natDigits _

theorem tokWithExp_some (neg : Bool) (ds1 frac : List Char) (ex : Int) :
    tokWithExp neg ds1 frac (some ex) =
      if 0 ≤ ex then
        some ⟨(if neg then -(digitsVal ds1 * 10 ^ frac.length + digitsVal frac : Int)
               else (digitsVal ds1 * 10 ^ frac.length + digitsVal frac : Int)) *
                10 ^ ex.toNat,
              frac.length⟩
      else
        some ⟨(if neg then -(digitsVal ds1 * 10 ^ frac.length + digitsVal frac : Int)
               else (digitsVal ds1 * 10 ^ frac.length + digitsVal frac : Int)),
              frac.length + (-ex).toNat⟩ := rfl

theorem tokCore_fmtNat (neg : Bool) (n e : Nat) :
    tokCore neg (fmtNat n e) =
      some ⟨(if neg then -(if e = 0 then (n * 10 : Int) else (n : Int))
             else (if e = 0 then (n * 10 : Int) else (n : Int))), max e 1⟩ := by
  have hdot : isDigitCh '.' = false := rfl
  have htw := takeWhile_append_stop hdot (natDigits (n / 10 ^ e))
    (if e = 0 then ['0']
     else List.replicate (e - (natDigits (n % 10 ^ e)).length) '0' ++
       natDigits (n % 10 ^ e)) natDigits_digit
  unfold tokCore fmtNat
  rw [htw.1, htw.2, fracSplit_dot _ (frac_digits n e)]
  dsimp only
  rw [if_neg (fun hand => natDigits_ne_nil _ hand.1)]
  have hre : readExp ([] : List Char) = some 0 := rfl
  rw [hre, tokWithExp_some, if_pos (le_refl (0 : Int))]
  rw [digitsVal_natDigits, frac_val, frac_length]
  have hxt : ((0 : Int).toNat) = 0 := rfl
  rw [hxt, pow_zero, mul_one]
  have hmain : ((n / 10 ^ e : Nat) * 10 ^ (max e 1) +
      ((if e = 0 then (0 : Nat) else n % 10 ^ e) : Nat) : Int)
      = (if e = 0 then (n * 10 : Int) else (n : Int)) := by
    by_cases he : e = 0
    · subst he
      norm_num
    · rw [if_neg he, if_neg he, max_eq_left (Nat.one_le_iff_ne_zero.mpr he)]
      norm_cast
      rw [Nat.mul_comm]
      exact Nat.div_add_mod n (10 ^ e)
  rw [hmain]

end TES3

namespace TES3

theorem readSign_not_sign {c : Char} (h1 : (c == '-') = false)
    (h2 : (c == '+') = false) (cs : List Char) :
    readSign (c :: cs) = (false, c :: cs) := by
  show (if c == '-' then ((true : Bool), cs)
        else if c == '+' then ((false : Bool), cs) else (false, c :: cs)) = _
  rw [h1, h2]
  simp

theorem tokFloat?_fmtDec (d : Dec) : tokFloat? (fmtDec d) = some d.reparsed := by
  have hrep : d.reparsed =
      if (Dec.norm d).e = 0 then ⟨(Dec.norm d).m * 10, 1⟩ else Dec.norm d := rfl
  unfold tokFloat? fmtDec
  rw [hrep]
  rcases hnorm : Dec.norm d with ⟨cm, ce⟩
  dsimp only
  by_cases hm : cm < 0
  · rw [if_pos hm, List.singleton_append]
    have hrs : readSign ('-' :: fmtNat cm.natAbs ce) = (true, fmtNat cm.natAbs ce) := rfl
    rw [hrs]
    dsimp only
    rw [tokCore_fmtNat]
    by_cases he : ce = 0
    · subst he
      simp only [eq_self_iff_true, if_true, Option.some.injEq, Dec.mk.injEq]
      refine ⟨?_, by omega⟩
      omega
    · simp only [he, if_false, if_true, eq_self_iff_true, Option.some.injEq, Dec.mk.injEq]
      refine ⟨?_, by omega⟩
      omega
  · rw [if_neg hm, List.nil_append]
    obtain ⟨c0, t0, hcons⟩ :=
      List.exists_cons_of_ne_nil (natDigits_ne_nil (cm.natAbs / 10 ^ ce))
    have hc0 : c0 ∈ natDigits (cm.natAbs / 10 ^ ce) := by
      rw [hcons]; exact List.mem_cons_self c0 t0
    obtain ⟨k, hk⟩ := natDigits_mem _ c0 hc0
    have hfmt : fmtNat cm.natAbs ce =
        c0 :: (t0 ++ '.' :: (if ce = 0 then ['0']
          else List.replicate (ce - (natDigits (cm.natAbs % 10 ^ ce)).length) '0' ++
            natDigits (cm.natAbs % 10 ^ ce))) := by
      unfold fmtNat
      rw [hcons, List.cons_append]
    rw [hfmt, readSign_not_sign (by rw [hk]; exact (digChr_spec k).2.2.1)
      (by rw [hk]; exact (digChr_spec k).2.2.2.1), ← hfmt]
    dsimp only
    rw [tokCore_fmtNat]
    by_cases he : ce = 0
    · subst he
      simp only [eq_self_iff_true, if_true, Bool.false_eq_true, if_false,
        Option.some.injEq, Dec.mk.injEq]
      refine ⟨?_, by omega⟩
      omega
    · simp only [he, if_false, Bool.false_eq_true, Option.some.injEq, Dec.mk.injEq]
      refine ⟨?_, by omega⟩
      omega

theorem parse3_fmt3 (x y z : Dec) :
    parse3 (fmt3 x y z) = some (x.reparsed, y.reparsed, z.reparsed) := by
  unfold parse3 fmt3 pySplit
  have htl : (String.mk (fmtDec x ++ ' ' :: (fmtDec y ++ ' ' :: fmtDec z))).toList
      = fmtDec x ++ ' ' :: (fmtDec y ++ ' ' :: fmtDec z) := rfl
  rw [htl, splitWs_triple _ _ _ (fmtDec_not_ws x) (fmtDec_not_ws y) (fmtDec_not_ws z)
      (fmtDec_ne_nil x) (fmtDec_ne_nil y) (fmtDec_ne_nil z)]
  dsimp only
  rw [tokFloat?_fmtDec, tokFloat?_fmtDec, tokFloat?_fmtDec]

theorem parse2_fmt2 (u v : Dec) :
    parse2 (fmt2 u v) = some (u.reparsed, v.reparsed) := by
  unfold parse2 fmt2 pySplit
  have htl : (String.mk (fmtDec u ++ ' ' :: fmtDec v)).toList
      = fmtDec u ++ ' ' :: fmtDec v := rfl
  rw [htl, splitWs_double _ _ (fmtDec_not_ws u) (fmtDec_not_ws v)
      (fmtDec_ne_nil u) (fmtDec_ne_nil v)]
  dsimp only
  rw [tokFloat?_fmtDec, tokFloat?_fmtDec]

theorem Dec.veq_iff_val (a b : Dec) : a.veq b ↔ a.val = b.val := by
  unfold Dec.veq Dec.val
  rw [div_eq_div_iff (by positivity) (by positivity)]
  constructor <;> intro h <;> exact_mod_cast h

theorem normAux_veq : ∀ (e : Nat) (m : Int),
    (normAux e m).1 * 10 ^ e = m * 10 ^ (normAux e m).2 := by
  intro e
  induction e with
  | zero => intro m; rfl
  | succ e ih =>
    intro m
    show (if m % 10 = 0 then normAux e (m / 10) else (m, e + 1)).1 * 10 ^ (e + 1) =
      m * 10 ^ (if m % 10 = 0 then normAux e (m / 10) else (m, e + 1)).2
    by_cases h : m % 10 = 0
    · rw [if_pos h]
      have hdvd : (10 : Int) ∣ m := Int.dvd_of_emod_eq_zero h
      have h10 : 10 * (m / 10) = m := Int.mul_ediv_cancel' hdvd
      calc (normAux e (m / 10)).1 * 10 ^ (e + 1)
          = ((normAux e (m / 10)).1 * 10 ^ e) * 10 := by ring
        _ = ((m / 10) * 10 ^ (normAux e (m / 10)).2) * 10 := by rw [ih (m / 10)]
        _ = (10 * (m / 10)) * 10 ^ (normAux e (m / 10)).2 := by ring
        _ = m * 10 ^ (normAux e (m / 10)).2 := by rw [h10]
    · rw [if_neg h]

theorem Dec.norm_veq (d : Dec) : d.norm.veq d := normAux_veq d.e d.m

theorem Dec.padOne_veq (c : Dec) : c.padOne.veq c := by
  unfold Dec.padOne
  by_cases he : c.e = 0
  · rw [if_pos he]
    show c.m * 10 * 10 ^ c.e = c.m * 10 ^ 1
    rw [he]
    ring
  · rw [if_neg he]

theorem Dec.reparsed_veq (d : Dec) : d.reparsed.veq d := by
  rw [Dec.veq_iff_val] at *
  have h1 := (Dec.veq_iff_val d.norm.padOne d.norm).mp (Dec.padOne_veq d.norm)
  have h2 := (Dec.veq_iff_val d.norm d).mp (Dec.norm_veq d)
  exact h1.trans h2

theorem Dec.val_negD (d : Dec) : d.negD.val = -d.val := by
  unfold Dec.negD Dec.val
  push_cast
  ring

theorem Dec.val_oneMinus (d : Dec) : d.oneMinus.val = 1 - d.val := by
  unfold Dec.oneMinus Dec.val
  push_cast
  rw [sub_div]
  congr 1
  exact div_self (by positivity)

end TES3

namespace TES3

/-! Value-level consequences of the round trip. -/

theorem Dec.val_reparsed (d : Dec) : d.reparsed.val = d.val :=
  (Dec.veq_iff_val d.reparsed d).mp (Dec.reparsed_veq d)

theorem mirror_coordinates_parsed {s : String} {x y z : Dec}
    (h : parse3 s = some (x, y, z)) :
    mirror_coordinates s = (fmt3 x.negD y z, []) := by
  unfold mirror_coordinates
  rw [h]

theorem mirror_coordinates_failed {s : String} (h : parse3 s = none) :
    mirror_coordinates s = (s, ["Error mirroring coordinates '" ++ s ++ "'"]) := by
  unfold mirror_coordinates
  rw [h]

theorem parse3_mirror {s : String} {x y z : Dec} (h : parse3 s = some (x, y, z)) :
    parse3 (mirror_coordinates s).1 =
      some (x.negD.reparsed, y.reparsed, z.reparsed) := by
  rw [mirror_coordinates_parsed h]
  exact parse3_fmt3 x.negD y z

theorem parse3val_mirror_mirror (s : String) :
    parse3val ((mirror_coordinates (mirror_coordinates s).1).1) = parse3val s := by
  cases hp : parse3 s with
  | none =>
    rw [mirror_coordinates_failed hp]
    unfold parse3val
    rw [mirror_coordinates_failed hp, hp]
  | some t =>
    obtain ⟨x, y, z⟩ := t
    have h1 := parse3_mirror hp
    have h2 := parse3_mirror h1
    unfold parse3val
    rw [h2, hp]
    refine congrArg some ?_
    have hx : x.negD.reparsed.negD.reparsed.val = x.val := by
      rw [Dec.val_reparsed, Dec.val_negD, Dec.val_reparsed, Dec.val_negD, neg_neg]
    have hy : y.reparsed.reparsed.val = y.val := by
      rw [Dec.val_reparsed, Dec.val_reparsed]
    have hz : z.reparsed.reparsed.val = z.val := by
      rw [Dec.val_reparsed, Dec.val_reparsed]
    rw [Prod.mk.injEq, Prod.mk.injEq]
    exact ⟨hx, hy, hz⟩

theorem mirror_uv_x_parsed {s : String} {u v : Dec} (h : parse2 s = some (u, v)) :
    mirror_uv s "x" = (fmt2 u.oneMinus v, []) := by
  unfold mirror_uv
  rw [h]
  rfl

theorem mirror_uv_y_parsed {s : String} {u v : Dec} (h : parse2 s = some (u, v)) :
    mirror_uv s "y" = (fmt2 u v.oneMinus, []) := by
  unfold mirror_uv
  rw [h]
  rfl

theorem mirror_uv_failed {s mt : String} (h : parse2 s = none) :
    mirror_uv s mt = (s, ["Error mirroring UV coords '" ++ s ++ "'"]) := by
  unfold mirror_uv
  rw [h]

theorem parse2val_mirror_x (s : String) :
    parse2val ((mirror_uv s "x").1) =
      (parse2 s).map (fun p => (1 - p.1.val, p.2.val)) := by
  cases hp : parse2 s with
  | none =>
    rw [mirror_uv_failed hp]
    unfold parse2val
    rw [hp]
    rfl
  | some p =>
    obtain ⟨u, v⟩ := p
    rw [mirror_uv_x_parsed hp]
    unfold parse2val
    rw [parse2_fmt2]
    dsimp only [Option.map_some']
    rw [Dec.val_reparsed, Dec.val_reparsed, Dec.val_oneMinus]

theorem parse2val_mirror_y (s : String) :
    parse2val ((mirror_uv s "y").1) =
      (parse2 s).map (fun p => (p.1.val, 1 - p.2.val)) := by
  cases hp : parse2 s with
  | none =>
    rw [mirror_uv_failed hp]
    unfold parse2val
    rw [hp]
    rfl
  | some p =>
    obtain ⟨u, v⟩ := p
    rw [mirror_uv_y_parsed hp]
    unfold parse2val
    rw [parse2_fmt2]
    dsimp only [Option.map_some']
    rw [Dec.val_reparsed, Dec.val_reparsed, Dec.val_oneMinus]

theorem mirrorJList_strs : ∀ vs : List String,
    mirrorJList (vs.map J.s) =
      .ok (vs.map (fun s => J.s (mirror_coordinates s).1),
           vs.flatMap (fun s => (mirror_coordinates s).2)) := by
  intro vs
  induction vs with
  | nil => rfl
  | cons s rest ih =>
    show (match mirrorElem (J.s s) with
      | Except.error _ => Except.error []
      | Except.ok (v', logs) =>
        match mirrorJList (rest.map J.s) with
        | Except.error ls => Except.error (logs ++ ls)
        | Except.ok (vs2, ls) => Except.ok (v' :: vs2, logs ++ ls)) = _
    rw [ih]
    rfl

theorem uvListMap_strs (mt : String) : ∀ uvs : List String,
    uvListMap mt (uvs.map J.s) =
      .ok (uvs.map (fun s => J.s (mirror_uv s mt).1),
           uvs.flatMap (fun s => (mirror_uv s mt).2)) := by
  intro uvs
  induction uvs with
  | nil => rfl
  | cons s rest ih =>
    show (match uvListMap mt (rest.map J.s) with
      | Except.error ls => Except.error ((mirror_uv s mt).2 ++ ls)
      | Except.ok (vs2, ls) =>
        Except.ok (J.s (mirror_uv s mt).1 :: vs2, (mirror_uv s mt).2 ++ ls)) = _
    rw [ih]
    rfl

end TES3

namespace TES3

/-! Association-list and transform structure lemmas. -/

theorem getField?_cons (k0 : String) (v0 : J) (rest : Doc) (k : String) :
    getField? ((k0, v0) :: rest) k =
      if k0 == k then some v0 else getField? rest k := by
  unfold getField?
  by_cases h : (k0 == k) = true
  · rw [List.find?_cons_of_pos _ (by simpa using h), if_pos h]
  · rw [List.find?_cons_of_neg _ (by simpa using h), if_neg h]

theorem updField_cons (k0 : String) (v0 : J) (rest : Doc) (k : String) (x : J) :
    updField ((k0, v0) :: rest) k x =
      (if k0 == k then (k, x) else (k0, v0)) :: updField rest k x := by
  unfold updField
  rw [List.map_cons]

theorem getField?_updField_same :
    ∀ (fields : Doc) (k : String) (x : J) (v : J),
      getField? fields k = some v → getField? (updField fields k x) k = some x := by
  intro fields k x
  induction fields with
  | nil => intro v h; exact absurd h (by simp [getField?])
  | cons kv rest ih =>
    obtain ⟨k0, v0⟩ := kv
    intro v h
    rw [getField?_cons] at h
    rw [updField_cons]
    by_cases hk : (k0 == k) = true
    · rw [if_pos hk, getField?_cons, if_pos (by simp)]
    · rw [if_neg hk, getField?_cons, if_neg hk]
      rw [if_neg hk] at h
      exact ih v h

theorem getField?_updField_ne :
    ∀ (fields : Doc) (k k1 : String) (x : J), (k1 == k) = false →
      getField? (updField fields k x) k1 = getField? fields k1 := by
  intro fields k k1 x hne
  induction fields with
  | nil => rfl
  | cons kv rest ih =>
    obtain ⟨k0, v0⟩ := kv
    rw [updField_cons]
    by_cases hk : (k0 == k) = true
    · rw [if_pos hk, getField?_cons, getField?_cons]
      have h1 : (k == k1) = false := by
        rw [beq_eq_false_iff_ne] at hne ⊢
        intro h
        exact hne h.symm
      have h2 : (k0 == k1) = false := by
        rw [beq_iff_eq] at hk
        rw [beq_eq_false_iff_ne] at hne ⊢
        intro h
        exact hne (h ▸ hk)
      rw [h1, h2, if_neg (by simp), if_neg (by simp)]
      exact ih
    · rw [if_neg hk, getField?_cons, getField?_cons]
      by_cases hkv : (k0 == k1) = true
      · rw [if_pos hkv, if_pos hkv]
      · rw [if_neg hkv, if_neg hkv]
        exact ih

theorem mirrorJList_length {items res : List J} {ls : List String}
    (h : mirrorJList items = Except.ok (res, ls)) : res.length = items.length := by
  induction items generalizing res ls with
  | nil =>
    have h0 : mirrorJList ([] : List J) =
        Except.ok (([] : List J), ([] : List String)) := rfl
    rw [h0] at h
    cases h
    rfl
  | cons v rest ih =>
    unfold mirrorJList at h
    cases hme : mirrorElem v with
    | error e => rw [hme] at h; exact absurd h (by simp)
    | ok pr =>
      rw [hme] at h
      obtain ⟨v2, logs⟩ := pr
      cases hrest : mirrorJList rest with
      | error ls2 => rw [hrest] at h; exact absurd h (by simp)
      | ok pr2 =>
        obtain ⟨vs2, ls2⟩ := pr2
        rw [hrest] at h
        simp only [Except.ok.injEq, Prod.mk.injEq] at h
        rw [← h.1]
        simp only [List.length_cons]
        rw [ih hrest]

end TES3

namespace TES3

theorem doCoordsField_arr {name : String} {st : BSt} {vs : List J}
    (hv : getField? st.fields name = some (J.arr vs)) :
    ∃ st2 vs2,
      (doCoordsField name st = Except.ok st2 ∨ doCoordsField name st = Except.error st2) ∧
      getField? st2.fields name = some (J.arr vs2) ∧ vs2.length = vs.length ∧
      ∀ k1, (k1 == name) = false → getField? st2.fields k1 = getField? st.fields k1 := by
  have hstep : doCoordsField name st =
      match mirrorJList vs with
      | Except.error ls => Except.error ⟨st.fields, st.logs ++ ls⟩
      | Except.ok (items2, ls) =>
        Except.ok ⟨updField st.fields name (J.arr items2), st.logs ++ ls⟩ := by
    unfold doCoordsField
    rw [hv]
    rfl
  cases hml : mirrorJList vs with
  | error ls =>
    rw [hml] at hstep
    exact ⟨⟨st.fields, st.logs ++ ls⟩, vs, Or.inr hstep, hv, rfl, fun _ _ => rfl⟩
  | ok pr =>
    obtain ⟨items2, ls⟩ := pr
    rw [hml] at hstep
    refine ⟨⟨updField st.fields name (J.arr items2), st.logs ++ ls⟩, items2,
      Or.inl hstep, ?_, mirrorJList_length hml, ?_⟩
    · exact getField?_updField_same _ _ _ _ hv
    · intro k1 hk1
      exact getField?_updField_ne _ _ _ _ hk1

theorem doCenter_pres (st : BSt) :
    ∃ st2, (doCenter st = Except.ok st2 ∨ doCenter st = Except.error st2) ∧
      ∀ k1, (k1 == "Center") = false →
        getField? st2.fields k1 = getField? st.fields k1 := by
  unfold doCenter
  cases hc : getField? st.fields "Center" with
  | none => exact ⟨st, Or.inl rfl, fun _ _ => rfl⟩
  | some v =>
    cases v with
    | s c =>
      exact ⟨_, Or.inl rfl, fun k1 hk1 => getField?_updField_ne _ _ _ _ hk1⟩
    | num n => exact ⟨st, Or.inr rfl, fun _ _ => rfl⟩
    | b bv => exact ⟨st, Or.inr rfl, fun _ _ => rfl⟩
    | null => exact ⟨st, Or.inr rfl, fun _ _ => rfl⟩
    | arr l => exact ⟨st, Or.inr rfl, fun _ _ => rfl⟩
    | obj f2 => exact ⟨st, Or.inr rfl, fun _ _ => rfl⟩

theorem doTrianglesX_pres (key : String) (st : BSt) :
    ∃ st2,
      (doTrianglesX key st = Except.ok st2 ∨ doTrianglesX key st = Except.error st2) ∧
      ∀ k1, (k1 == "Triangles") = false →
        getField? st2.fields k1 = getField? st.fields k1 := by
  unfold doTrianglesX
  cases ht : getField? st.fields "Triangles" with
  | none => exact ⟨st, Or.inl rfl, fun _ _ => rfl⟩
  | some tv =>
    dsimp only
    cases hit : pyIter tv with
    | error e => exact ⟨st, Or.inr rfl, fun _ _ => rfl⟩
    | ok items =>
      dsimp only
      cases hall : items.all isStrJ with
      | true =>
        exact ⟨_, Or.inl rfl, fun k1 hk1 => getField?_updField_ne _ _ _ _ hk1⟩
      | false =>
        simp only [Bool.false_eq_true, if_false]
        cases tv with
        | arr l =>
          dsimp only
          cases h3 : (l.length % 3 == 0) with
          | true =>
            simp only [eq_self_iff_true, if_true]
            exact ⟨_, Or.inl rfl, fun k1 hk1 => getField?_updField_ne _ _ _ _ hk1⟩
          | false =>
            simp only [Bool.false_eq_true, if_false]
            exact ⟨_, Or.inl rfl, fun _ _ => rfl⟩
        | s str => dsimp only; exact ⟨_, Or.inl rfl, fun _ _ => rfl⟩
        | num n => dsimp only; exact ⟨_, Or.inl rfl, fun _ _ => rfl⟩
        | b bv => dsimp only; exact ⟨_, Or.inl rfl, fun _ _ => rfl⟩
        | null => dsimp only; exact ⟨_, Or.inl rfl, fun _ _ => rfl⟩
        | obj f2 => dsimp only; exact ⟨_, Or.inl rfl, fun _ _ => rfl⟩

end TES3

namespace TES3

theorem except_bind_ok {α β ε : Type} (a : α) (f : α → Except ε β) :
    (Except.ok a : Except ε α) >>= f = f a := rfl

theorem except_bind_error {α β ε : Type} (e : ε) (f : α → Except ε β) :
    (Except.error e : Except ε α) >>= f = Except.error e := rfl

theorem transformShapeX_lens {key : String} {fields : Doc} {vs ns : List J}
    (hv : getField? fields "Vertices" = some (J.arr vs))
    (hn : getField? fields "Normals" = some (J.arr ns)) :
    ∃ fields2 vs2 ns2, (transformShapeX key (J.obj fields)).1 = J.obj fields2 ∧
      getField? fields2 "Vertices" = some (J.arr vs2) ∧ vs2.length = vs.length ∧
      getField? fields2 "Normals" = some (J.arr ns2) ∧ ns2.length = ns.length := by
  obtain ⟨st1, vs1, hstep1, hv1, hlen1, hpres1⟩ :=
    @doCoordsField_arr "Vertices" ⟨fields, []⟩ vs hv
  unfold transformShapeX
  dsimp only
  cases hstep1 with
  | inr herr =>
    rw [herr, except_bind_error]
    refine ⟨st1.fields, vs1, ns, rfl, hv1, hlen1, ?_, rfl⟩
    rw [hpres1 "Normals" (by decide)]
    exact hn
  | inl hok =>
    rw [hok, except_bind_ok]
    have hn1 : getField? st1.fields "Normals" = some (J.arr ns) := by
      rw [hpres1 "Normals" (by decide)]
      exact hn
    obtain ⟨st2, ns2, hstep2, hn2, hlen2, hpres2⟩ := doCoordsField_arr hn1
    have hv2 : getField? st2.fields "Vertices" = some (J.arr vs1) := by
      rw [hpres2 "Vertices" (by decide)]
      exact hv1
    cases hstep2 with
    | inr herr =>
      rw [herr, except_bind_error]
      exact ⟨st2.fields, vs1, ns2, rfl, hv2, hlen1, hn2, hlen2⟩
    | inl hok2 =>
      rw [hok2, except_bind_ok]
      obtain ⟨st3, hstep3, hpres3⟩ := doCenter_pres st2
      have hv3 : getField? st3.fields "Vertices" = some (J.arr vs1) := by
        rw [hpres3 "Vertices" (by decide)]
        exact hv2
      have hn3 : getField? st3.fields "Normals" = some (J.arr ns2) := by
        rw [hpres3 "Normals" (by decide)]
        exact hn2
      cases hstep3 with
      | inr herr =>
        rw [herr, except_bind_error]
        exact ⟨st3.fields, vs1, ns2, rfl, hv3, hlen1, hn3, hlen2⟩
      | inl hok3 =>
        rw [hok3, except_bind_ok]
        obtain ⟨st4, hstep4, hpres4⟩ := doTrianglesX_pres key st3
        have hv4 : getField? st4.fields "Vertices" = some (J.arr vs1) := by
          rw [hpres4 "Vertices" (by decide)]
          exact hv3
        have hn4 : getField? st4.fields "Normals" = some (J.arr ns2) := by
          rw [hpres4 "Normals" (by decide)]
          exact hn3
        cases hstep4 with
        | inr herr =>
          rw [herr]
          exact ⟨st4.fields, vs1, ns2, rfl, hv4, hlen1, hn4, hlen2⟩
        | inl hok4 =>
          rw [hok4]
          exact ⟨st4.fields, vs1, ns2, rfl, hv4, hlen1, hn4, hlen2⟩

theorem process_model_data_map (d : Doc) :
    (process_model_data d).1 = d.map (fun kv =>
      if hasSub "NiTriShapeData" kv.1 then (kv.1, (transformShapeX kv.1 kv.2).1)
      else kv) := by
  induction d with
  | nil => rfl
  | cons kv rest ih =>
    obtain ⟨k, v⟩ := kv
    unfold process_model_data
    rw [List.map_cons, ← ih]
    by_cases h : hasSub "NiTriShapeData" k
    · simp only [h, if_true]
    · simp only [h, if_false, Bool.false_eq_true]

theorem process_model_uv_map (mt : String) (d : Doc) :
    (process_model_uv mt d).1 = d.map (fun kv =>
      if hasSub "NiTriShapeData" kv.1 then (kv.1, (transformShapeUV kv.1 mt kv.2).1)
      else kv) := by
  induction d with
  | nil => rfl
  | cons kv rest ih =>
    obtain ⟨k, v⟩ := kv
    unfold process_model_uv
    rw [List.map_cons, ← ih]
    by_cases h : hasSub "NiTriShapeData" k
    · simp only [h, if_true]
    · simp only [h, if_false, Bool.false_eq_true]

theorem hasSub_mono {k : String} (h : hasSub "ShapeData" k = false) :
    hasSub "NiTriShapeData" k = false := by
  unfold hasSub at *
  rw [decide_eq_false_iff_not] at *
  intro hinf
  exact h (List.IsInfix.trans (by decide) hinf)

end TES3

namespace TES3

theorem transformShapeX_canonical (key : String) (vs ns : List String) (c : String) :
    (transformShapeX key (J.obj [("Vertices", J.arr (vs.map J.s)),
        ("Normals", J.arr (ns.map J.s)), ("Center", J.s c)])).1 =
      J.obj [("Vertices", J.arr ((vs.map (fun s => (mirror_coordinates s).1)).map J.s)),
        ("Normals", J.arr ((ns.map (fun s => (mirror_coordinates s).1)).map J.s)),
        ("Center", J.s (mirror_coordinates c).1)] := by
  have h1 : doCoordsField "Vertices"
      ⟨[("Vertices", J.arr (vs.map J.s)), ("Normals", J.arr (ns.map J.s)),
        ("Center", J.s c)], []⟩ =
      Except.ok ⟨[("Vertices", J.arr ((vs.map (fun s => (mirror_coordinates s).1)).map J.s)),
        ("Normals", J.arr (ns.map J.s)), ("Center", J.s c)],
        [] ++ vs.flatMap (fun s => (mirror_coordinates s).2)⟩ := by
    unfold doCoordsField
    rw [show getField? [("Vertices", J.arr (vs.map J.s)), ("Normals", J.arr (ns.map J.s)),
        ("Center", J.s c)] "Vertices" = some (J.arr (vs.map J.s)) from rfl]
    dsimp only [pyIter]
    rw [mirrorJList_strs]
    dsimp only
    rw [show ∀ x : J, updField [("Vertices", J.arr (vs.map J.s)),
        ("Normals", J.arr (ns.map J.s)), ("Center", J.s c)] "Vertices" x =
        [("Vertices", x), ("Normals", J.arr (ns.map J.s)), ("Center", J.s c)]
      from fun x => rfl]
    simp only [List.map_map, Function.comp_def]
  have h2 : doCoordsField "Normals"
      ⟨[("Vertices", J.arr ((vs.map (fun s => (mirror_coordinates s).1)).map J.s)),
        ("Normals", J.arr (ns.map J.s)), ("Center", J.s c)],
        [] ++ vs.flatMap (fun s => (mirror_coordinates s).2)⟩ =
      Except.ok ⟨[("Vertices", J.arr ((vs.map (fun s => (mirror_coordinates s).1)).map J.s)),
        ("Normals", J.arr ((ns.map (fun s => (mirror_coordinates s).1)).map J.s)),
        ("Center", J.s c)],
        ([] ++ vs.flatMap (fun s => (mirror_coordinates s).2)) ++
          ns.flatMap (fun s => (mirror_coordinates s).2)⟩ := by
    unfold doCoordsField
    rw [show getField? [("Vertices", J.arr ((vs.map (fun s => (mirror_coordinates s).1)).map J.s)),
        ("Normals", J.arr (ns.map J.s)), ("Center", J.s c)] "Normals" =
        some (J.arr (ns.map J.s)) from rfl]
    dsimp only [pyIter]
    rw [mirrorJList_strs]
    dsimp only
    rw [show ∀ x : J, updField [("Vertices",
        J.arr ((vs.map (fun s => (mirror_coordinates s).1)).map J.s)),
        ("Normals", J.arr (ns.map J.s)), ("Center", J.s c)] "Normals" x =
        [("Vertices", J.arr ((vs.map (fun s => (mirror_coordinates s).1)).map J.s)),
         ("Normals", x), ("Center", J.s c)]
      from fun x => rfl]
    simp only [List.map_map, Function.comp_def]
  unfold transformShapeX
  dsimp only
  rw [h1, except_bind_ok, h2, except_bind_ok]
  rw [show doCenter ⟨[("Vertices",
      J.arr ((vs.map (fun s => (mirror_coordinates s).1)).map J.s)),
      ("Normals", J.arr ((ns.map (fun s => (mirror_coordinates s).1)).map J.s)),
      ("Center", J.s c)],
      ([] ++ vs.flatMap (fun s => (mirror_coordinates s).2)) ++
        ns.flatMap (fun s => (mirror_coordinates s).2)⟩ =
    Except.ok ⟨[("Vertices",
      J.arr ((vs.map (fun s => (mirror_coordinates s).1)).map J.s)),
      ("Normals", J.arr ((ns.map (fun s => (mirror_coordinates s).1)).map J.s)),
      ("Center", J.s (mirror_coordinates c).1)],
      (([] ++ vs.flatMap (fun s => (mirror_coordinates s).2)) ++
        ns.flatMap (fun s => (mirror_coordinates s).2)) ++ (mirror_coordinates c).2⟩
    from rfl]
  rw [except_bind_ok]
  rfl

end TES3

namespace TES3

theorem range'_add3 : ∀ (k s : Nat),
    List.range' (s + 3) k 3 = (List.range' s k 3).map (fun i => i + 3) := by
  intro k
  induction k with
  | zero => intro s; rfl
  | succ k ih =>
    intro s
    rw [List.range'_succ, List.range'_succ, List.map_cons, ih (s + 3)]

theorem swapAt3_shift (x y z : J) (t : List J) (i : Nat) :
    swapAt3 (x :: y :: z :: t) (i + 3) = x :: y :: z :: swapAt3 t i := by
  unfold swapAt3
  have hset1 : ∀ (v : J), (x :: y :: z :: t).set (i + 3) v = x :: y :: z :: t.set i v := by
    intro v
    show (x :: y :: z :: t).set (i + 1 + 1 + 1) v = _
    rw [List.set_cons_succ, List.set_cons_succ, List.set_cons_succ]
  have hget1 : (x :: y :: z :: t).getD (i + 3 + 2) J.null = t.getD (i + 2) J.null := by
    show (x :: y :: z :: t).getD (i + 2 + 1 + 1 + 1) J.null = _
    rw [List.getD_cons_succ, List.getD_cons_succ, List.getD_cons_succ]
  have hget0 : (x :: y :: z :: t).getD (i + 3) J.null = t.getD i J.null := by
    show (x :: y :: z :: t).getD (i + 1 + 1 + 1) J.null = _
    rw [List.getD_cons_succ, List.getD_cons_succ, List.getD_cons_succ]
  rw [hget1, hget0, hset1]
  show (x :: y :: z :: t.set i (t.getD (i + 2) J.null)).set (i + 2 + 1 + 1 + 1) _ = _
  rw [List.set_cons_succ, List.set_cons_succ, List.set_cons_succ]

theorem foldl_swapAt3_shift : ∀ (is : List Nat) (x y z : J) (t : List J),
    (is.map (fun i => i + 3)).foldl swapAt3 (x :: y :: z :: t) =
      x :: y :: z :: is.foldl swapAt3 t := by
  intro is
  induction is with
  | nil => intro x y z t; rfl
  | cons i rest ih =>
    intro x y z t
    rw [List.map_cons, List.foldl_cons, List.foldl_cons, swapAt3_shift]
    exact ih x y z (swapAt3 t i)

theorem revFlatLoop_spec : ∀ (n : Nat) (l : List J), l.length ≤ n →
    l.length % 3 = 0 → revFlatLoop l = specSwapGroups l := by
  intro n
  induction n with
  | zero =>
    intro l hl _
    have h0 : l = [] := List.length_eq_zero.mp (by omega)
    subst h0
    rfl
  | succ n ih =>
    intro l hl hmod
    match l with
    | [] => rfl
    | [a] => exact absurd hmod (by norm_num)
    | [a, b] => exact absurd hmod (by norm_num)
    | a :: b :: c :: rest =>
      have h1 : rest.length ≤ n := by
        simp only [List.length_cons] at hl
        omega
      have h2 : rest.length % 3 = 0 := by
        simp only [List.length_cons] at hmod
        omega
      have hlen : (a :: b :: c :: rest).length / 3 = rest.length / 3 + 1 := by
        simp only [List.length_cons]
        omega
      unfold revFlatLoop
      rw [hlen, List.range'_succ, List.foldl_cons]
      rw [show swapAt3 (a :: b :: c :: rest) 0 = c :: b :: a :: rest from rfl]
      rw [show (0 : Nat) + 3 = 3 from rfl, range'_add3, foldl_swapAt3_shift]
      rw [show specSwapGroups (a :: b :: c :: rest) = c :: b :: a :: specSwapGroups rest
        from rfl]
      rw [← ih rest h1 h2]
      rfl

end TES3

namespace TES3

theorem transformShapeUV_uvsets {key mt : String} {fields : Doc} {uvs : List String}
    {restSets : List J}
    (hf : getField? fields "UV Sets" = some (J.arr (J.arr (uvs.map J.s) :: restSets)))
    (hne : uvs ≠ []) :
    (transformShapeUV key mt (J.obj fields)).1 =
      J.obj (updField fields "UV Sets"
        (J.arr (J.arr (uvs.map (fun s => J.s (mirror_uv s mt).1)) :: restSets))) := by
  have hie : (uvs.map J.s).isEmpty = false := by
    cases uvs with
    | nil => exact absurd rfl hne
    | cons u0 urest => rfl
  unfold transformShapeUV
  dsimp only
  rw [hf]
  dsimp only
  rw [hie]
  simp only [Bool.false_eq_true, if_false]
  rw [uvListMap_strs]

end TES3

namespace TES3

/-- C1: the claim says a triangle entry that does not split into exactly 3
tokens leaves `triangles` unchanged and produces a warning naming the block.
The X script instead silently DROPS such entries (the length filter on line 58
makes the `except IndexError` warning handler dead code): on the document
below it rewrites `Triangles` to the empty list and logs nothing, while the
legacy script shows the intended skip-and-warn behaviour on the same input.
This evaluates both embeddings at the failing input. -/
theorem C1_malformed_triangles_evaluation :
    process_model_data [("NiTriShapeData", J.obj
      [("Vertices", J.arr [J.s "1.0 2.0 3.0"]), ("Triangles", J.arr [J.s "0 1"])])] =
    ([("NiTriShapeData", J.obj
      [("Vertices", J.arr [J.s "-1.0 2.0 3.0"]), ("Triangles", J.arr [])])], []) ∧
    legacy_process_model_data [("NiTriShapeData", J.obj
      [("Vertices", J.arr [J.s "1.0 2.0 3.0"]), ("Triangles", J.arr [J.s "0 1"])])] =
    Except.ok ([("NiTriShapeData", J.obj
      [("Vertices", J.arr [J.s "-1.0 2.0 3.0"]), ("Triangles", J.arr [J.s "0 1"])])],
      ["Warning: Malformed triangle data in NiTriShapeData - skipping triangle processing"])
    := ⟨rfl, rfl⟩

/-- C2 counterexample: the X-axis position mirror mutates the document object
passed to it (`process_model_data` assigns into the loaded dict and returns
it), so after the call the caller's document is NOT the original: the claim
that the input is unchanged fails on this one-vertex document. -/
theorem C2_counterexample_input_mutated :
    ¬ (nifX_call [("NiTriShapeData",
        J.obj [("Vertices", J.arr [J.s "1.0 2.0 3.0"])])]).1 =
      [("NiTriShapeData", J.obj [("Vertices", J.arr [J.s "1.0 2.0 3.0"])])] := by
  intro h
  have h2 := congrArg (fun d : Doc =>
    match d with
    | [(_, J.obj [(_, J.arr [J.s s2])])] => s2
    | _ => "") h
  exact absurd h2 (by decide)

/-- C2 amended: the UV mirror deep-copies (`json.loads(json.dumps(...))`)
before each transform, so the caller's document is unchanged after both calls
and each sibling is the transform of the unmodified original; the X-axis
position mirror instead returns the very object it mutated, so after the call
the input document equals the mirrored output. -/
theorem C2_amended_aliasing (d : Doc) :
    (uvw_call d).1 = d ∧
    (uvw_call d).2.1 = (process_model_uv "x" d).1 ∧
    (uvw_call d).2.2 = (process_model_uv "y" d).1 ∧
    (nifX_call d).1 = (nifX_call d).2 ∧
    (nifX_call d).2 = (process_model_data d).1 :=
  ⟨rfl, rfl, rfl, rfl, rfl⟩

/-- C3: on every coordinate string parsing as `(x, y, z)`, the X mirror
produces a string parsing to the values `(-x, y, z)`; the example
`"1.0 2.0 3.0" ↦ "-1.0 2.0 3.0"` holds; and the legacy `mirror_vertex`
computes the same output string on parsable input. -/
theorem C3_x_mirror_negates_x (s : String) (x y z : Dec)
    (h : parse3 s = some (x, y, z)) :
    (∃ x2 y2 z2, parse3 (mirror_coordinates s).1 = some (x2, y2, z2) ∧
      x2.val = -x.val ∧ y2.val = y.val ∧ z2.val = z.val) ∧
    (mirror_coordinates "1.0 2.0 3.0").1 = "-1.0 2.0 3.0" ∧
    mirror_vertex s = Except.ok (mirror_coordinates s).1 := by
  refine ⟨⟨x.negD.reparsed, y.reparsed, z.reparsed, parse3_mirror h, ?_, ?_, ?_⟩,
    rfl, ?_⟩
  · rw [Dec.val_reparsed, Dec.val_negD]
  · rw [Dec.val_reparsed]
  · rw [Dec.val_reparsed]
  · rw [mirror_coordinates_parsed h]
    unfold mirror_vertex
    rw [h]

/-- Witness for C3 at the spec's example input. -/
theorem C3_witness :
    (∃ x2 y2 z2, parse3 (mirror_coordinates "1.0 2.0 3.0").1 = some (x2, y2, z2) ∧
      x2.val = -(Dec.mk 10 1).val ∧ y2.val = (Dec.mk 20 1).val ∧
      z2.val = (Dec.mk 30 1).val) ∧
    (mirror_coordinates "1.0 2.0 3.0").1 = "-1.0 2.0 3.0" ∧
    mirror_vertex "1.0 2.0 3.0" = Except.ok (mirror_coordinates "1.0 2.0 3.0").1 :=
  C3_x_mirror_negates_x "1.0 2.0 3.0" ⟨10, 1⟩ ⟨20, 1⟩ ⟨30, 1⟩ rfl

/-- C5: winding reversal.  The flat-integer loop of the source equals the
spec's "swap first and third of each consecutive group of 3"; a triangle
string with exactly 3 tokens `a b c` is emitted as `c b a`; and the spec's
example `[0,1,2,3,4,5] ↦ [2,1,0,5,4,3]` evaluates as claimed. -/
theorem C5_winding_reversal :
    (∀ l : List J, l.length % 3 = 0 → revFlatLoop l = specSwapGroups l) ∧
    (∀ (s : String) (a b c : List Char), splitWs s.toList = [a, b, c] →
      revTriStrs [J.s s] = [J.s (String.mk (c ++ ' ' :: (b ++ ' ' :: a)))]) ∧
    revFlatLoop [J.num 0, J.num 1, J.num 2, J.num 3, J.num 4, J.num 5] =
      [J.num 2, J.num 1, J.num 0, J.num 5, J.num 4, J.num 3] := by
  refine ⟨fun l h => revFlatLoop_spec l.length l (le_refl _) h, ?_, rfl⟩
  intro s a b c h
  unfold revTriStrs
  simp only [List.map_cons, List.map_nil]
  rw [h]
  rfl

/-- Witness for C5 at concrete inputs. -/
theorem C5_witness :
    revFlatLoop [J.num 0, J.num 1, J.num 2, J.num 3, J.num 4, J.num 5] =
      specSwapGroups [J.num 0, J.num 1, J.num 2, J.num 3, J.num 4, J.num 5] ∧
    revTriStrs [J.s "0 1 2"] =
      [J.s (String.mk (['2'] ++ ' ' :: (['1'] ++ ' ' :: ['0'])))] :=
  ⟨C5_winding_reversal.1 _ (by decide),
   C5_winding_reversal.2.1 "0 1 2" ['0'] ['1'] ['2'] rfl⟩

/-- C8 counterexample: in the legacy script a numeric parse failure on one
vertex string aborts the whole-document transform (`mirror_vertex` has no
try/except, so the `ValueError` propagates out of `process_model_data` and
`process_single_file` fails the file), contradicting the claim that the
failure is never fatal to the whole-document transform. -/
theorem C8_counterexample_legacy_fatal :
    legacy_process_model_data
      [("NiTriShapeData", J.obj [("Vertices", J.arr [J.s "foo bar baz"])])] =
    Except.error "ValueError" := rfl

/-- C8 amended: in the X-axis script the behaviour is as claimed: a string
that does not parse is returned unchanged with a warning; every element of a
coordinate list is processed independently of the others; and the transform
always returns a document with every block present. -/
theorem C8_amended_x_script_nonfatal :
    (∀ s : String, parse3 s = none →
      mirror_coordinates s = (s, ["Error mirroring coordinates '" ++ s ++ "'"])) ∧
    (∀ vs : List String, mirrorJList (vs.map J.s) =
      Except.ok (vs.map (fun s => J.s (mirror_coordinates s).1),
        vs.flatMap (fun s => (mirror_coordinates s).2))) ∧
    (∀ d : Doc, (process_model_data d).1.length = d.length) := by
  refine ⟨fun s h => mirror_coordinates_failed h, mirrorJList_strs, fun d => ?_⟩
  rw [process_model_data_map, List.length_map]

/-- Witness for the amended C8 at a concrete unparsable string. -/
theorem C8_witness :
    mirror_coordinates "foo bar baz" =
      ("foo bar baz", ["Error mirroring coordinates 'foo bar baz'"]) :=
  C8_amended_x_script_nonfatal.1 "foo bar baz" rfl

/-- C10: `mirror_uv` with any mirror type other than `'x'` and `'y'` returns
the input string unchanged and logs a line (a warning for parsable strings, a
parse-error line otherwise); the embedding is total, matching the source where
every exception is caught inside the function. -/
theorem C10_unknown_mirror_type (s mt : String) (h1 : mt ≠ "x") (h2 : mt ≠ "y") :
    (mirror_uv s mt).1 = s ∧ (mirror_uv s mt).2 ≠ [] := by
  unfold mirror_uv
  cases hp : parse2 s with
  | none => exact ⟨rfl, by simp⟩
  | some p =>
    obtain ⟨u, v⟩ := p
    have hx : (mt == "x") = false := beq_eq_false_iff_ne.mpr h1
    have hy : (mt == "y") = false := beq_eq_false_iff_ne.mpr h2
    dsimp only
    rw [hx, hy]
    simp

/-- Witness for C10 at a concrete input. -/
theorem C10_witness :
    (mirror_uv "0.5 0.5" "z").1 = "0.5 0.5" ∧ (mirror_uv "0.5 0.5" "z").2 ≠ [] :=
  C10_unknown_mirror_type "0.5 0.5" "z" (by decide) (by decide)

end TES3

namespace TES3

/-- C4: for a geometry block whose `"UV Sets"` field holds a nonempty first
UV set of strings, mirror type `'x'` (the spec's axis U) maps each parsed pair
`(u, v)` of the first set to `(1 - u, v)`, mirror type `'y'` (axis V) maps it
to `(u, 1 - v)`, and every UV set after the first is returned unchanged. -/
theorem C4_uv_mirror_first_set_only (key : String) (fields : Doc)
    (uvs : List String) (restSets : List J)
    (hf : getField? fields "UV Sets" = some (J.arr (J.arr (uvs.map J.s) :: restSets)))
    (hne : uvs ≠ []) :
    ∃ fx fy,
      (transformShapeUV key "x" (J.obj fields)).1 = J.obj fx ∧
      (transformShapeUV key "y" (J.obj fields)).1 = J.obj fy ∧
      (∃ uvs2 : List String, getField? fx "UV Sets" =
          some (J.arr (J.arr (uvs2.map J.s) :: restSets)) ∧
        uvs2.map parse2val =
          uvs.map (fun s => (parse2 s).map (fun p => (1 - p.1.val, p.2.val)))) ∧
      (∃ uvs2 : List String, getField? fy "UV Sets" =
          some (J.arr (J.arr (uvs2.map J.s) :: restSets)) ∧
        uvs2.map parse2val =
          uvs.map (fun s => (parse2 s).map (fun p => (p.1.val, 1 - p.2.val)))) := by
  refine ⟨_, _, transformShapeUV_uvsets hf hne, transformShapeUV_uvsets hf hne,
    ⟨uvs.map (fun s => (mirror_uv s "x").1), ?_, ?_⟩,
    ⟨uvs.map (fun s => (mirror_uv s "y").1), ?_, ?_⟩⟩
  · rw [getField?_updField_same fields "UV Sets" _ _ hf]
    simp only [List.map_map, Function.comp_def]
  · rw [List.map_map]
    exact List.map_congr_left fun s _ => parse2val_mirror_x s
  · rw [getField?_updField_same fields "UV Sets" _ _ hf]
    simp only [List.map_map, Function.comp_def]
  · rw [List.map_map]
    exact List.map_congr_left fun s _ => parse2val_mirror_y s

/-- Witness for C4 at a concrete two-set block. -/
theorem C4_witness :
    ∃ fx fy,
      (transformShapeUV "NiTriShapeData" "x"
        (J.obj [("UV Sets", J.arr [J.arr [J.s "0.25 0.75"],
          J.arr [J.s "0.5 0.5"]])])).1 = J.obj fx ∧
      (transformShapeUV "NiTriShapeData" "y"
        (J.obj [("UV Sets", J.arr [J.arr [J.s "0.25 0.75"],
          J.arr [J.s "0.5 0.5"]])])).1 = J.obj fy ∧
      (∃ uvs2 : List String, getField? fx "UV Sets" =
          some (J.arr (J.arr (uvs2.map J.s) :: [J.arr [J.s "0.5 0.5"]])) ∧
        uvs2.map parse2val = ["0.25 0.75"].map
          (fun s => (parse2 s).map (fun p => (1 - p.1.val, p.2.val)))) ∧
      (∃ uvs2 : List String, getField? fy "UV Sets" =
          some (J.arr (J.arr (uvs2.map J.s) :: [J.arr [J.s "0.5 0.5"]])) ∧
        uvs2.map parse2val = ["0.25 0.75"].map
          (fun s => (parse2 s).map (fun p => (p.1.val, 1 - p.2.val)))) :=
  C4_uv_mirror_first_set_only "NiTriShapeData"
    [("UV Sets", J.arr [J.arr [J.s "0.25 0.75"], J.arr [J.s "0.5 0.5"]])]
    ["0.25 0.75"] [J.arr [J.s "0.5 0.5"]] rfl (by decide)

/-- C6: applying the X-axis transform twice to a geometry block whose
vertices, normals and center are well-formed coordinate strings returns a
block whose vertex, normal and center values all equal the original values
(the mirror is an involution on the parsed values; the re-encoded strings may
differ only in numeral spelling, e.g. `"1"` versus `"1.0"`). -/
theorem C6_x_mirror_involution (key : String) (vs ns : List String) (c : String)
    (hvs : ∀ s ∈ vs, (parse3 s).isSome = true)
    (hns : ∀ s ∈ ns, (parse3 s).isSome = true)
    (hc : (parse3 c).isSome = true) :
    ∃ vs2 ns2 : List String, ∃ c2 : String,
      (process_model_data (process_model_data
        [(key, J.obj [("Vertices", J.arr (vs.map J.s)),
          ("Normals", J.arr (ns.map J.s)), ("Center", J.s c)])]).1).1 =
        [(key, J.obj [("Vertices", J.arr (vs2.map J.s)),
          ("Normals", J.arr (ns2.map J.s)), ("Center", J.s c2)])] ∧
      vs2.map parse3val = vs.map parse3val ∧
      ns2.map parse3val = ns.map parse3val ∧
      parse3val c2 = parse3val c := by
  by_cases h : hasSub "NiTriShapeData" key = true
  · refine ⟨(vs.map (fun s => (mirror_coordinates s).1)).map
        (fun s => (mirror_coordinates s).1),
      (ns.map (fun s => (mirror_coordinates s).1)).map
        (fun s => (mirror_coordinates s).1),
      (mirror_coordinates (mirror_coordinates c).1).1, ?_, ?_, ?_, ?_⟩
    · have h1 : (process_model_data
          [(key, J.obj [("Vertices", J.arr (vs.map J.s)),
            ("Normals", J.arr (ns.map J.s)), ("Center", J.s c)])]).1 =
          [(key, J.obj [("Vertices",
              J.arr ((vs.map (fun s => (mirror_coordinates s).1)).map J.s)),
            ("Normals",
              J.arr ((ns.map (fun s => (mirror_coordinates s).1)).map J.s)),
            ("Center", J.s (mirror_coordinates c).1)])] := by
        rw [process_model_data_map]
        simp only [List.map_cons, List.map_nil]
        rw [if_pos h, transformShapeX_canonical]
      rw [h1, process_model_data_map]
      simp only [List.map_cons, List.map_nil]
      rw [if_pos h, transformShapeX_canonical]
    · rw [List.map_map, List.map_map]
      exact List.map_congr_left fun s _ => parse3val_mirror_mirror s
    · rw [List.map_map, List.map_map]
      exact List.map_congr_left fun s _ => parse3val_mirror_mirror s
    · exact parse3val_mirror_mirror c
  · have h1 : (process_model_data
        [(key, J.obj [("Vertices", J.arr (vs.map J.s)),
          ("Normals", J.arr (ns.map J.s)), ("Center", J.s c)])]).1 =
        [(key, J.obj [("Vertices", J.arr (vs.map J.s)),
          ("Normals", J.arr (ns.map J.s)), ("Center", J.s c)])] := by
      rw [process_model_data_map]
      simp only [List.map_cons, List.map_nil]
      rw [if_neg h]
    refine ⟨vs, ns, c, ?_, rfl, rfl, rfl⟩
    rw [h1, h1]

/-- Witness for C6 at a concrete valid geometry block. -/
theorem C6_witness :
    ∃ vs2 ns2 : List String, ∃ c2 : String,
      (process_model_data (process_model_data
        [("NiTriShapeData", J.obj [("Vertices", J.arr (["1.0 2.0 3.0"].map J.s)),
          ("Normals", J.arr (["0.5 -0.25 1"].map J.s)),
          ("Center", J.s "1 2 3")])]).1).1 =
        [("NiTriShapeData", J.obj [("Vertices", J.arr (vs2.map J.s)),
          ("Normals", J.arr (ns2.map J.s)), ("Center", J.s c2)])] ∧
      vs2.map parse3val = ["1.0 2.0 3.0"].map parse3val ∧
      ns2.map parse3val = ["0.5 -0.25 1"].map parse3val ∧
      parse3val c2 = parse3val "1 2 3" :=
  C6_x_mirror_involution "NiTriShapeData" ["1.0 2.0 3.0"] ["0.5 -0.25 1"] "1 2 3"
    (by intro s hs; rw [List.mem_singleton.mp hs]; rfl)
    (by intro s hs; rw [List.mem_singleton.mp hs]; rfl)
    rfl

/-- C7: the X-axis transform preserves the lengths of the `Vertices` and
`Normals` lists of every geometry block given as JSON arrays (mirroring maps
element-wise; a failing block is left with its original lists). -/
theorem C7_cardinality_preserved (d : Doc) (k : String) (fields : Doc)
    (vs ns : List J)
    (hmem : (k, J.obj fields) ∈ d)
    (hv : getField? fields "Vertices" = some (J.arr vs))
    (hn : getField? fields "Normals" = some (J.arr ns)) :
    ∃ fields2 vs2 ns2, (k, J.obj fields2) ∈ (process_model_data d).1 ∧
      getField? fields2 "Vertices" = some (J.arr vs2) ∧ vs2.length = vs.length ∧
      getField? fields2 "Normals" = some (J.arr ns2) ∧ ns2.length = ns.length := by
  rw [process_model_data_map]
  by_cases h : hasSub "NiTriShapeData" k = true
  · obtain ⟨fields2, vs2, ns2, heq, hv2, hlen2, hn2, hlen3⟩ :=
      @transformShapeX_lens k fields vs ns hv hn
    refine ⟨fields2, vs2, ns2, ?_, hv2, hlen2, hn2, hlen3⟩
    have hmm := List.mem_map_of_mem (f := fun kv =>
      if hasSub "NiTriShapeData" kv.1 then (kv.1, (transformShapeX kv.1 kv.2).1)
      else kv) hmem
    dsimp only at hmm
    rw [if_pos h, heq] at hmm
    exact hmm
  · refine ⟨fields, vs, ns, ?_, hv, rfl, hn, rfl⟩
    have hmm := List.mem_map_of_mem (f := fun kv =>
      if hasSub "NiTriShapeData" kv.1 then (kv.1, (transformShapeX kv.1 kv.2).1)
      else kv) hmem
    dsimp only at hmm
    rw [if_neg h] at hmm
    exact hmm

/-- Witness for C7 at a concrete one-block document. -/
theorem C7_witness :
    ∃ fields2 vs2 ns2,
      ("NiTriShapeData", J.obj fields2) ∈ (process_model_data
        [("NiTriShapeData", J.obj [("Vertices", J.arr [J.s "1 2 3"]),
          ("Normals", J.arr [J.s "0 0 1"])])]).1 ∧
      getField? fields2 "Vertices" = some (J.arr vs2) ∧
      vs2.length = [J.s "1 2 3"].length ∧
      getField? fields2 "Normals" = some (J.arr ns2) ∧
      ns2.length = [J.s "0 0 1"].length :=
  C7_cardinality_preserved
    [("NiTriShapeData", J.obj [("Vertices", J.arr [J.s "1 2 3"]),
      ("Normals", J.arr [J.s "0 0 1"])])]
    "NiTriShapeData"
    [("Vertices", J.arr [J.s "1 2 3"]), ("Normals", J.arr [J.s "0 0 1"])]
    [J.s "1 2 3"] [J.s "0 0 1"]
    (List.mem_singleton.mpr rfl) rfl rfl

/-- C9: a block whose key does not contain the marker substring "ShapeData"
(and therefore does not contain "NiTriShapeData") is returned unchanged, at
the same position, by both the X-axis transform and the UV transform. -/
theorem C9_non_geometry_blocks_untouched (d : Doc) (i : Nat) (k : String)
    (v : J) (mt : String)
    (hkv : List.get? d i = some (k, v))
    (hk : hasSub "ShapeData" k = false) :
    List.get? (process_model_data d).1 i = some (k, v) ∧
    List.get? (process_model_uv mt d).1 i = some (k, v) := by
  have hm : ¬ hasSub "NiTriShapeData" k = true := by
    rw [hasSub_mono hk]
    simp
  constructor
  · rw [process_model_data_map, List.get?_map, hkv]
    dsimp only [Option.map_some']
    rw [if_neg hm]
  · rw [process_model_uv_map, List.get?_map, hkv]
    dsimp only [Option.map_some']
    rw [if_neg hm]

/-- Witness for C9 at a concrete metadata block. -/
theorem C9_witness :
    List.get? (process_model_data
      [("meta", J.s "hello")]).1 0 = some ("meta", J.s "hello") ∧
    List.get? (process_model_uv "x"
      [("meta", J.s "hello")]).1 0 = some ("meta", J.s "hello") :=
  C9_non_geometry_blocks_untouched [("meta", J.s "hello")] 0 "meta"
    (J.s "hello") "x" rfl (by decide)

end TES3
